import Mathlib

/-!
# abacatepay-cli: device login polling, credential store and webhook relay

A shallow embedding of `main.go`.  Go strings and byte slices are lists of
bytes; the network, the file system and the websocket channel are explicit
inputs; every operation returns the list of externally visible events it
performed, so that "how many requests were made" is a statement about a list.

The parts of the Go standard library that decide a property (`unicode/utf8`,
the string encoder and the decoder of `encoding/json`, `log.Fatal`/`os.Exit`
versus `defer`) are embedded after their documented behaviour.
-/

namespace AbacatePay

/-! ## Bytes and strings -/

/-- A Go `byte`. -/
abbrev Byte := Fin 256

/-- A Go `string` or `[]byte`: an arbitrary sequence of bytes, not necessarily UTF-8. -/
abbrev Bytes := List Byte

/-- The Go conversion `byte(n)`, which keeps the low eight bits. -/
def byte (n : Nat) : Byte := ⟨n % 256, Nat.mod_lt n (by decide)⟩

/-- The bytes of a string literal made of ASCII characters. -/
def ascii (s : String) : Bytes := s.toList.map (fun c => byte c.toNat)

/-! ## `unicode/utf8` -/

/-- The constant `utf8.RuneError`, U+FFFD. -/
def RuneError : Nat := 0xFFFD

/-- The constant `utf8.MaxRune`. -/
def MaxRune : Nat := 0x10FFFF

/-- Size in bytes announced by a leading byte in `0xC2..0xF4` (table `first`, low bits). -/
def leadSize (p0 : Nat) : Nat :=
  if p0 < 0xE0 then 2 else if p0 < 0xF0 then 3 else 4

/-- Lowest second byte accepted after a leading byte (table `acceptRanges`, field `lo`). -/
def acceptLo (p0 : Nat) : Nat :=
  if p0 = 0xE0 then 0xA0 else if p0 = 0xF0 then 0x90 else 0x80

/-- Highest second byte accepted after a leading byte (table `acceptRanges`, field `hi`). -/
def acceptHi (p0 : Nat) : Nat :=
  if p0 = 0xED then 0x9F else if p0 = 0xF4 then 0x8F else 0xBF

/-- The function `utf8.DecodeRune` (and `DecodeRuneInString`): the first rune of `p` and its
width in bytes; `(RuneError, 0)` on empty input and `(RuneError, 1)` on an invalid encoding.
The masks and shifts of the Go code are written as `%` and `*`. -/
def decodeRune : Bytes → Nat × Nat
  | [] => (RuneError, 0)
  | p0 :: rest =>
    if p0.val < 0x80 then (p0.val, 1)
    else if p0.val < 0xC2 ∨ 0xF4 < p0.val then (RuneError, 1)
    else if rest.length + 1 < leadSize p0.val then (RuneError, 1)
    else
      match rest with
      | [] => (RuneError, 1)
      | b1 :: rest1 =>
        if b1.val < acceptLo p0.val ∨ acceptHi p0.val < b1.val then (RuneError, 1)
        else if leadSize p0.val ≤ 2 then ((p0.val % 32) * 64 + b1.val % 64, 2)
        else
          match rest1 with
          | [] => (RuneError, 1)
          | b2 :: rest2 =>
            if b2.val < 0x80 ∨ 0xBF < b2.val then (RuneError, 1)
            else if leadSize p0.val ≤ 3 then
              ((p0.val % 16) * 4096 + (b1.val % 64) * 64 + b2.val % 64, 3)
            else
              match rest2 with
              | [] => (RuneError, 1)
              | b3 :: _ =>
                if b3.val < 0x80 ∨ 0xBF < b3.val then (RuneError, 1)
                else
                  ((p0.val % 8) * 262144 + (b1.val % 64) * 4096 + (b2.val % 64) * 64
                    + b3.val % 64, 4)

/-- The function `utf8.EncodeRune` (and `AppendRune`): the UTF-8 encoding of a rune; runes out
of range and surrogates are encoded as U+FFFD. -/
def encodeRune (r : Nat) : Bytes :=
  if r ≤ 0x7F then [byte r]
  else if r ≤ 0x7FF then [byte (0xC0 + r / 64), byte (0x80 + r % 64)]
  else if MaxRune < r ∨ (0xD800 ≤ r ∧ r ≤ 0xDFFF) then [0xEF, 0xBF, 0xBD]
  else if r ≤ 0xFFFF then
    [byte (0xE0 + r / 4096), byte (0x80 + (r / 64) % 64), byte (0x80 + r % 64)]
  else
    [byte (0xF0 + r / 262144), byte (0x80 + (r / 4096) % 64), byte (0x80 + (r / 64) % 64),
      byte (0x80 + r % 64)]

/-- The loop of `utf8.Valid`: every position decodes to a rune other than an encoding error.
The first argument bounds the number of runes and is taken as the length of the input. -/
def validAux : Nat → Bytes → Bool
  | _, [] => true
  | 0, _ :: _ => false
  | n + 1, p0 :: rest =>
    if p0.val < 0x80 then validAux n rest
    else
      let d := decodeRune (p0 :: rest)
      if d.1 = RuneError ∧ d.2 = 1 then false
      else validAux n (rest.drop (d.2 - 1))

/-- The function `utf8.Valid`. -/
def utf8Valid (s : Bytes) : Bool := validAux s.length s

/-! ## `encoding/json`: encoding -/

/-- The table `hex = "0123456789abcdef"`, indexed by a value below sixteen. -/
def hex (n : Nat) : Byte :=
  if n < 10 then byte (0x30 + n) else byte (0x61 + (n - 10))

/-- The table `htmlSafeSet`: the ASCII bytes written unescaped when HTML escaping is on,
that is all of `0x20..0x7F` except `"`, `&`, `<`, `>` and `\`. -/
def htmlSafeSet (b : Nat) : Bool :=
  decide (0x20 ≤ b ∧ b < 0x80 ∧ b ≠ 0x22 ∧ b ≠ 0x26 ∧ b ≠ 0x3C ∧ b ≠ 0x3E ∧ b ≠ 0x5C)

/-- The loop of `appendString` with `escapeHTML = true`, as of Go 1.22: the escaped contents
of a JSON string, without the surrounding quotes.  (Older releases write backspace and form
feed as `\u0008` and `\u000c`, which decode alike.)  The first argument bounds the number of
iterations and is taken as the length of the input. -/
def escapeAux : Nat → Bytes → Bytes
  | _, [] => []
  | 0, _ :: _ => []
  | n + 1, b :: rest =>
    if b.val < 0x80 then
      if htmlSafeSet b.val then b :: escapeAux n rest
      else if b.val = 0x5C ∨ b.val = 0x22 then 0x5C :: b :: escapeAux n rest
      else if b.val = 0x08 then 0x5C :: 0x62 :: escapeAux n rest
      else if b.val = 0x0C then 0x5C :: 0x66 :: escapeAux n rest
      else if b.val = 0x0A then 0x5C :: 0x6E :: escapeAux n rest
      else if b.val = 0x0D then 0x5C :: 0x72 :: escapeAux n rest
      else if b.val = 0x09 then 0x5C :: 0x74 :: escapeAux n rest
      else
        0x5C :: 0x75 :: 0x30 :: 0x30 :: hex (b.val / 16) :: hex (b.val % 16) :: escapeAux n rest
    else
      let d := decodeRune ((b :: rest).take 4)
      if d.1 = RuneError ∧ d.2 = 1 then
        0x5C :: 0x75 :: 0x66 :: 0x66 :: 0x66 :: 0x64 :: escapeAux n rest
      else if d.1 = 0x2028 ∨ d.1 = 0x2029 then
        0x5C :: 0x75 :: 0x32 :: 0x30 :: 0x32 :: hex (d.1 % 16)
          :: escapeAux n (rest.drop (d.2 - 1))
      else
        (b :: rest).take d.2 ++ escapeAux n (rest.drop (d.2 - 1))

/-- The function `appendString(dst, src, true)`: a Go string as a quoted JSON string. -/
def appendString (src : Bytes) : Bytes :=
  0x22 :: (escapeAux src.length src ++ [0x22])

/-- Config structure. -/
structure Config where
  Token : Bytes
  deriving DecidableEq, Repr

/-- The call `json.MarshalIndent(config, "", "  ")` on a `*Config`: the object with the one
field named by the struct tag `json:"token"`, one member per line, indented by two spaces,
a space after the colon. -/
def MarshalIndent (config : Config) : Bytes :=
  [0x7B, 0x0A, 0x20, 0x20] ++ appendString (ascii "token") ++ [0x3A, 0x20]
    ++ appendString config.Token ++ [0x0A, 0x7D]

/-- The call `json.Marshal(map[string]string{key: value})` on a map with one entry. -/
def MarshalSingleton (key value : Bytes) : Bytes :=
  [0x7B] ++ appendString key ++ [0x3A] ++ appendString value ++ [0x7D]

/-! ## `encoding/json`: decoding -/

/-- The function `isSpace` of the scanner: space, tab, carriage return, line feed. -/
def isSpace (c : Nat) : Bool :=
  decide (c = 0x20 ∨ c = 0x09 ∨ c = 0x0D ∨ c = 0x0A)

/-- Skips the white space that the scanner accepts between tokens. -/
def skipSpace : Bytes → Bytes
  | [] => []
  | c :: rest => if isSpace c.val then skipSpace rest else c :: rest

/-- Value of a hexadecimal digit, as computed in `getu4`; `none` for any other byte. -/
def hexVal (c : Nat) : Option Nat :=
  if 0x30 ≤ c ∧ c ≤ 0x39 then some (c - 0x30)
  else if 0x61 ≤ c ∧ c ≤ 0x66 then some (c - 0x61 + 10)
  else if 0x41 ≤ c ∧ c ≤ 0x46 then some (c - 0x41 + 10)
  else none

/-- The function `getu4`: the rune written `\uXXXX` at the start of `s`; `none` stands for
the result `-1`. -/
def getu4 : Bytes → Option Nat
  | b0 :: b1 :: h1 :: h2 :: h3 :: h4 :: _ =>
    if b0.val = 0x5C ∧ b1.val = 0x75 then
      match hexVal h1.val, hexVal h2.val, hexVal h3.val, hexVal h4.val with
      | some d1, some d2, some d3, some d4 => some (((d1 * 16 + d2) * 16 + d3) * 16 + d4)
      | _, _, _, _ => none
    else none
  | _ => none

/-- The function `utf16.DecodeRune` applied to a first half and to the result of `getu4`:
the code point of a valid surrogate pair, U+FFFD otherwise. -/
def utf16DecodeRune (r1 : Nat) (r2 : Option Nat) : Nat :=
  match r2 with
  | some lo =>
    if 0xD800 ≤ r1 ∧ r1 < 0xDC00 ∧ 0xDC00 ≤ lo ∧ lo < 0xE000 then
      (r1 - 0xD800) * 1024 + (lo - 0xDC00) + 0x10000
    else RuneError
  | none => RuneError

/-- One iteration of the decoding loop of `unquoteBytes`, at the byte `c` followed by `rest`:
the bytes written and the input left; `none` where the Go function returns `ok = false`.
An escape is resolved, an ASCII byte is copied, and any other byte is decoded as UTF-8 and
encoded again, so that an invalid byte becomes U+FFFD. -/
def unquoteStep (c : Byte) (rest : Bytes) : Option (Bytes × Bytes) :=
  if c.val = 0x5C then
    match rest with
    | [] => none
    | e :: rest1 =>
      if e.val = 0x22 ∨ e.val = 0x5C ∨ e.val = 0x2F ∨ e.val = 0x27 then some ([e], rest1)
      else if e.val = 0x62 then some ([0x08], rest1)
      else if e.val = 0x66 then some ([0x0C], rest1)
      else if e.val = 0x6E then some ([0x0A], rest1)
      else if e.val = 0x72 then some ([0x0D], rest1)
      else if e.val = 0x74 then some ([0x09], rest1)
      else if e.val = 0x75 then
        match getu4 (c :: rest) with
        | none => none
        | some rr =>
          if 0xD800 ≤ rr ∧ rr < 0xE000 then
            let dec := utf16DecodeRune rr (getu4 (rest.drop 5))
            if dec ≠ RuneError then some (encodeRune dec, rest.drop 11)
            else some (encodeRune RuneError, rest.drop 5)
          else some (encodeRune rr, rest.drop 5)
      else none
  else if c.val = 0x22 ∨ c.val < 0x20 then none
  else if c.val < 0x80 then some ([c], rest)
  else
    let d := decodeRune (c :: rest)
    some (encodeRune d.1, rest.drop (d.2 - 1))

/-- The decoding loop of `unquoteBytes` on the contents of a string literal (the bytes between
the quotes).  The fast path of the Go function, which returns the input unchanged when it
holds no escape and is valid UTF-8, computes the same result and is not modelled apart.
The first argument bounds the number of iterations and is taken as the length of the
input. -/
def unquoteAux : Nat → Bytes → Option Bytes
  | _, [] => some []
  | 0, _ :: _ => none
  | n + 1, c :: rest =>
    match unquoteStep c rest with
    | none => none
    | some (out, left) => (unquoteAux n left).map (fun t => out ++ t)

/-- The function `unquoteBytes`, given the contents of a string literal. -/
def unquote (raw : Bytes) : Option Bytes := unquoteAux raw.length raw

/-- The scanner states `stateInString`, `stateInStringEsc` and `stateInStringEscU…`: given the
bytes after an opening quote, the contents of the literal and the bytes after the closing
quote; `none` on a control character, a bad escape or a missing closing quote. -/
def scanString : Bytes → Option (Bytes × Bytes)
  | [] => none
  | c :: rest =>
    if c.val = 0x22 then some ([], rest)
    else if c.val = 0x5C then
      match rest with
      | [] => none
      | e :: rest1 =>
        if e.val = 0x62 ∨ e.val = 0x66 ∨ e.val = 0x6E ∨ e.val = 0x72 ∨ e.val = 0x74
            ∨ e.val = 0x5C ∨ e.val = 0x2F ∨ e.val = 0x22 then
          (scanString rest1).map (fun p => (c :: e :: p.1, p.2))
        else if e.val = 0x75 then
          match rest1 with
          | h1 :: h2 :: h3 :: h4 :: rest2 =>
            if (hexVal h1.val).isSome ∧ (hexVal h2.val).isSome ∧ (hexVal h3.val).isSome
                ∧ (hexVal h4.val).isSome then
              (scanString rest2).map (fun p => (c :: e :: h1 :: h2 :: h3 :: h4 :: p.1, p.2))
            else none
          | _ => none
        else none
    else if c.val < 0x20 then none
    else (scanString rest).map (fun p => (c :: p.1, p.2))

/-- Whether a byte is an ASCII digit. -/
def isDigit (c : Nat) : Bool := decide (0x30 ≤ c ∧ c ≤ 0x39)

/-- The scanner states `state1`, `stateDot0` and `stateE0`: skips a run of digits. -/
def skipDigits : Bytes → Bytes
  | [] => []
  | c :: rest => if isDigit c.val then skipDigits rest else c :: rest

/-- The scanner states `stateE` and `stateESign`: the exponent after `e` or `E`, an optional
sign and at least one digit. -/
def scanExponent (bs : Bytes) : Option Bytes :=
  let afterSign :=
    match bs with
    | c :: rest => if c.val = 0x2B ∨ c.val = 0x2D then rest else bs
    | [] => bs
  match afterSign with
  | c :: rest => if isDigit c.val then some (skipDigits rest) else none
  | [] => none

/-- The exponent part that may follow the integer or the fraction of a number. -/
def scanOptExponent (bs : Bytes) : Option Bytes :=
  match bs with
  | c :: rest => if c.val = 0x65 ∨ c.val = 0x45 then scanExponent rest else some bs
  | [] => some bs

/-- The scanner state `state0` (after the integer part of a number): an optional fraction,
a dot and at least one digit, then an optional exponent. -/
def scanAfterInt (bs : Bytes) : Option Bytes :=
  match bs with
  | c :: rest =>
    if c.val = 0x2E then
      match rest with
      | d :: rest1 => if isDigit d.val then scanOptExponent (skipDigits rest1) else none
      | [] => none
    else scanOptExponent bs
  | [] => some bs

/-- The scanner states for the integer part of a number, after an optional minus sign: a
single `0`, or a digit `1..9` followed by digits. -/
def scanInt (bs : Bytes) : Option Bytes :=
  match bs with
  | c :: rest =>
    if c.val = 0x30 then scanAfterInt rest
    else if 0x31 ≤ c.val ∧ c.val ≤ 0x39 then scanAfterInt (skipDigits rest)
    else none
  | [] => none

/-- Expects the bytes `lit` at the start of the input and returns what follows them. -/
def scanLiteral : Bytes → Bytes → Option Bytes
  | [], bs => some bs
  | _ :: _, [] => none
  | l :: lit, c :: rest => if l = c then scanLiteral lit rest else none

/-- A decoded JSON value.  Numbers are checked by the scanner and their text is not kept:
neither decoding target of this program can hold one. -/
inductive JVal where
  | null
  | bool (b : Bool)
  | number
  | string (s : Bytes)
  | array (items : List JVal)
  | object (members : List (Bytes × JVal))

/-- The constant `maxNestingDepth` of the scanner. -/
def maxNestingDepth : Nat := 10000

mutual
/-- One JSON value at the start of the input (white space already skipped), as accepted by
the scanner from `stateBeginValue`; returns the value and the bytes after it.  The first
argument bounds the nesting of calls, the second is the number of enclosing arrays and
objects. -/
def parseValue : Nat → Nat → Bytes → Option (JVal × Bytes)
  | 0, _, _ => none
  | _ + 1, _, [] => none
  | n + 1, depth, c :: rest =>
    if c.val = 0x7B then
      if maxNestingDepth < depth + 1 then none
      else
        match skipSpace rest with
        | [] => none
        | d :: rest1 =>
          if d.val = 0x7D then some (JVal.object [], rest1)
          else (parseMembers n (depth + 1) (d :: rest1)).map (fun p => (JVal.object p.1, p.2))
    else if c.val = 0x5B then
      if maxNestingDepth < depth + 1 then none
      else
        match skipSpace rest with
        | [] => none
        | d :: rest1 =>
          if d.val = 0x5D then some (JVal.array [], rest1)
          else (parseElements n (depth + 1) (d :: rest1)).map (fun p => (JVal.array p.1, p.2))
    else if c.val = 0x22 then
      match scanString rest with
      | none => none
      | some (raw, rest1) => (unquote raw).map (fun s => (JVal.string s, rest1))
    else if c.val = 0x2D then (scanInt rest).map (fun r => (JVal.number, r))
    else if isDigit c.val then (scanInt (c :: rest)).map (fun r => (JVal.number, r))
    else if c.val = 0x74 then
      (scanLiteral (ascii "rue") rest).map (fun r => (JVal.bool true, r))
    else if c.val = 0x66 then
      (scanLiteral (ascii "alse") rest).map (fun r => (JVal.bool false, r))
    else if c.val = 0x6E then
      (scanLiteral (ascii "ull") rest).map (fun r => (JVal.null, r))
    else none

/-- The members of an object from the opening quote of a key (scanner state
`stateBeginString`) up to and including the closing brace. -/
def parseMembers : Nat → Nat → Bytes → Option (List (Bytes × JVal) × Bytes)
  | 0, _, _ => none
  | _ + 1, _, [] => none
  | n + 1, depth, q :: rest =>
    if q.val = 0x22 then
      match scanString rest with
      | none => none
      | some (raw, rest1) =>
        match unquote raw with
        | none => none
        | some key =>
          match skipSpace rest1 with
          | [] => none
          | colon :: rest2 =>
            if colon.val = 0x3A then
              match parseValue n depth (skipSpace rest2) with
              | none => none
              | some (v, rest3) =>
                match skipSpace rest3 with
                | [] => none
                | e :: rest4 =>
                  if e.val = 0x2C then
                    (parseMembers n depth (skipSpace rest4)).map
                      (fun p => ((key, v) :: p.1, p.2))
                  else if e.val = 0x7D then some ([(key, v)], rest4)
                  else none
            else none
    else none

/-- The elements of an array from the first byte of an element up to and including the
closing bracket. -/
def parseElements : Nat → Nat → Bytes → Option (List JVal × Bytes)
  | 0, _, _ => none
  | n + 1, depth, bs =>
    match parseValue n depth bs with
    | none => none
    | some (v, rest) =>
      match skipSpace rest with
      | [] => none
      | e :: rest1 =>
        if e.val = 0x2C then
          (parseElements n depth (skipSpace rest1)).map (fun p => (v :: p.1, p.2))
        else if e.val = 0x5D then some ([v], rest1)
        else none
end

/-- The first JSON value of the input, after leading white space, and what follows it.  Every
nested call consumes at least one byte, so a nesting bound of the length of the input plus
one is never the reason for a failure. -/
def parseFirst (data : Bytes) : Option (JVal × Bytes) :=
  parseValue (data.length + 1) 0 (skipSpace data)

/-- The function `checkValid` followed by the scan of `Unmarshal`: the input is exactly one
JSON value surrounded by white space. -/
def parseDocument (data : Bytes) : Option JVal :=
  match parseFirst data with
  | some (v, rest) => if skipSpace rest = [] then some v else none
  | none => none

/-! ## Errors -/

deriving instance DecidableEq for Except

/-- The values of type `error` that the program handles. -/
inductive Err where
  /-- An error of `user.Current()`. -/
  | userLookup
  /-- A `*json.SyntaxError` (or an unexpected end of input). -/
  | invalidJSON
  /-- A `*json.UnmarshalTypeError`. -/
  | unmarshalType
  /-- An error of `os.WriteFile`. -/
  | fileWrite
  /-- An error of `http.Post`: the request failed at the transport level. -/
  | transport (cause : Nat)
  /-- The error `fmt.Errorf("authorization timed out. Please try again")`. -/
  | authTimeout
  deriving DecidableEq, Repr

/-! ## Decoding into the two targets of the program -/

/-- One member of a JSON object decoded into a `Config` (function `object` of the decoder,
struct case).  A key selects the field `Token` when it is the tag `token` exactly or when it
matches it under the case folding of the library, given as `fold`.  A string sets the field,
`null` leaves it, any other value records a type error; the first recorded error is kept. -/
def decodeConfigMember (fold : Bytes → Bool) (st : Config × Option Err) (m : Bytes × JVal) :
    Config × Option Err :=
  if m.1 = ascii "token" ∨ fold m.1 = true then
    match m.2 with
    | JVal.string s => ({ Token := s }, st.2)
    | JVal.null => st
    | _ => (st.1, match st.2 with | some e => some e | none => some Err.unmarshalType)
  else st

/-- The call `json.Unmarshal(data, &config)` on a zero `Config`. -/
def Unmarshal (fold : Bytes → Bool) (data : Bytes) : Except Err Config :=
  match parseDocument data with
  | none => Except.error Err.invalidJSON
  | some (JVal.object members) =>
    match members.foldl (decodeConfigMember fold) ({ Token := [] }, none) with
    | (config, none) => Except.ok config
    | (_, some e) => Except.error e
  | some JVal.null => Except.ok { Token := [] }
  | some _ => Except.error Err.unmarshalType

/-- A Go `map[string]string`, as the list of its entries; the nil map is the empty list. -/
abbrev StringMap := List (Bytes × Bytes)

/-- The assignment `m[key] = value`. -/
def mapSet (m : StringMap) (key value : Bytes) : StringMap :=
  (key, value) :: m.filter (fun e => decide (e.1 ≠ key))

/-- The lookup `value, ok := m[key]`. -/
def mapGet (m : StringMap) (key : Bytes) : Option Bytes :=
  (m.find? (fun e => decide (e.1 = key))).map (fun e => e.2)

/-- One member of a JSON object decoded into a `map[string]string` (function `object` of the
decoder, map case): the element starts as the empty string, a string value sets it, any
other value leaves it empty, and the entry is stored in every case. -/
def decodeMapMember (m : StringMap) (e : Bytes × JVal) : StringMap :=
  match e.2 with
  | JVal.string s => mapSet m e.1 s
  | _ => mapSet m e.1 []

/-- The call `json.NewDecoder(body).Decode(&result)` on a nil `map[string]string`, its error
discarded as in the source: the first JSON value of the body is decoded, what follows it is
not read; anything but an object leaves the map nil. -/
def decodeStringMap (body : Bytes) : StringMap :=
  match parseFirst body with
  | some (JVal.object members, _) => members.foldl decodeMapMember []
  | _ => []

/-! ## Constants of `main.go` -/

/-- The constant `apiBaseURL`. -/
def apiBaseURL : Bytes := ascii "https://api.abacatepay.com"

/-- The constant `configFileName`. -/
def configFileName : Bytes := ascii ".abacatepay.json"

/-- The constant `pollInterval`, in seconds. -/
def pollInterval : Nat := 2

/-- The constant `maxRetries`. -/
def maxRetries : Nat := 30

/-- The constant `websocketBaseURL`. -/
def websocketBaseURL : Bytes := ascii "wss://ws.abacatepay.com"

/-- The content type of every request the program posts. -/
def applicationJSON : Bytes := ascii "application/json"

/-! ## The credential store -/

/-- Why `os.ReadFile` failed. -/
inductive ReadError where
  | notExist
  | other
  deriving DecidableEq, Repr

/-- What the operating system answers to the credential store.  A file that was written with
success reads back with the bytes written. -/
structure Env where
  /-- The result of `user.Current()`: the home directory, or `none` for an error. -/
  homeDir : Option Bytes
  /-- The function `filepath.Join` on two elements. -/
  join : Bytes → Bytes → Bytes
  /-- The result of `os.ReadFile` on each path. -/
  readFile : Bytes → Except ReadError Bytes
  /-- Whether `os.WriteFile` succeeds on each path. -/
  writable : Bytes → Bool
  /-- Whether an object key matches the field name `token` under the case folding of
  `encoding/json`. -/
  fold : Bytes → Bool

/-- The function `getConfigPath` returns the path to the config file. -/
def getConfigPath (env : Env) : Except Err Bytes :=
  match env.homeDir with
  | none => Except.error Err.userLookup
  | some home => Except.ok (env.join home configFileName)

/-- The function `ReadConfig` reads the stored configuration. -/
def ReadConfig (env : Env) : Except Err Config :=
  match getConfigPath env with
  | Except.error err => Except.error err
  | Except.ok configPath =>
    match env.readFile configPath with
    | Except.error _ => Except.ok { Token := [] }
    | Except.ok data =>
      match Unmarshal env.fold data with
      | Except.error err => Except.error err
      | Except.ok config => Except.ok config

/-- The call `os.WriteFile(path, data, 0644)`: the error, if any, and the file system after
the call. -/
def writeFile (env : Env) (path data : Bytes) : Option Err × Env :=
  if env.writable path = true then
    (none, { env with readFile := fun p => if p = path then Except.ok data else env.readFile p })
  else (some Err.fileWrite, env)

/-- The function `WriteConfig` writes configuration to file: the error returned, `none` for
`nil`, and the file system after the call.  Marshalling a `Config` cannot fail. -/
def WriteConfig (env : Env) (config : Config) : Option Err × Env :=
  match getConfigPath env with
  | Except.error err => (some err, env)
  | Except.ok configPath => writeFile env configPath (MarshalIndent config)

/-! ## Events -/

/-- The lines the program prints or logs. -/
inductive Msg where
  | startingListener
  | listenerStarted
  | forwardingTo (url : Bytes)
  | receivedWebhook
  | payload (message : Bytes)
  | forwardFailed (cause : Nat)
  | connectFailed
  | closedUnexpectedly
  | readConfigFailed (err : Err)
  | notLoggedIn
  deriving DecidableEq, Repr

/-- What the program does to the outside world, in the order it does it. -/
inductive Event where
  /-- A call `time.Sleep`, in seconds. -/
  | sleep (seconds : Nat)
  /-- A call `http.Post(url, contentType, body)`. -/
  | post (url contentType body : Bytes)
  /-- A call `resp.Body.Close()`. -/
  | bodyClose
  /-- A call `websocket.DefaultDialer.Dial(url, nil)`. -/
  | dial (url : Bytes)
  /-- A call `conn.ReadMessage()`. -/
  | read
  /-- A call `conn.Close()`. -/
  | connClose
  /-- A line on standard output (`fmt.Println`, `fmt.Printf`). -/
  | stdout (msg : Msg)
  /-- A line of the logger (`log.Printf` and the first half of `log.Fatal`). -/
  | log (msg : Msg)
  /-- A call `os.Exit(code)`, the second half of `log.Fatal`. -/
  | exit (code : Nat)
  deriving DecidableEq, Repr

/-- Whether an event is an HTTP request. -/
def Event.isPost : Event → Bool
  | Event.post _ _ _ => true
  | _ => false

/-- Whether an event touches the network: an HTTP request or a websocket dial. -/
def Event.isNetwork : Event → Bool
  | Event.post _ _ _ => true
  | Event.dial _ => true
  | Event.read => true
  | _ => false

/-- The HTTP requests among the events, as pairs of URL and body, in order. -/
def posts : List Event → List (Bytes × Bytes)
  | [] => []
  | Event.post url _ body :: rest => (url, body) :: posts rest
  | _ :: rest => posts rest

/-- The result of `http.Post`. -/
inductive HttpResult where
  /-- A non-nil error: no response was received. -/
  | failure (cause : Nat)
  /-- A response with its status code and its body. -/
  | response (status : Nat) (body : Bytes)
  deriving DecidableEq, Repr

/-! ## Device login: `PollForToken` -/

/-- The loop of `PollForToken` from the iteration `retries` on.  `net i` is the outcome of
the request made when `retries = i`.  The first argument bounds the number of iterations
and is taken above `maxRetries`, so the loop always ends through its own condition.  The
deferred `resp.Body.Close()` calls, which run when the function returns, are not recorded. -/
def pollLoop (net : Nat → HttpResult) (deviceCode : Bytes) :
    Nat → Nat → Except Err Bytes × List Event
  | 0, _ => (Except.error Err.authTimeout, [])
  | fuel + 1, retries =>
    if retries < maxRetries then
      let body := MarshalSingleton (ascii "deviceCode") deviceCode
      let evs := [Event.sleep pollInterval,
        Event.post (apiBaseURL ++ ascii "/token") applicationJSON body]
      match net retries with
      | HttpResult.failure cause => (Except.error (Err.transport cause), evs)
      | HttpResult.response status respBody =>
        if status = 200 then
          match mapGet (decodeStringMap respBody) (ascii "token") with
          | some token => (Except.ok token, evs)
          | none =>
            let r := pollLoop net deviceCode fuel (retries + 1)
            (r.1, evs ++ r.2)
        else
          let r := pollLoop net deviceCode fuel (retries + 1)
          (r.1, evs ++ r.2)
    else (Except.error Err.authTimeout, [])

/-- The function `PollForToken` polls the API until the token is received: the result and
the events performed. -/
def PollForToken (net : Nat → HttpResult) (deviceCode : Bytes) :
    Except Err Bytes × List Event :=
  pollLoop net deviceCode (maxRetries + 1) 0

/-- Number of poll attempts (requests posted) among the events. -/
def attempts (evs : List Event) : Nat := (posts evs).length

/-! ## Webhook relay: `Listen` -/

/-- How a Go function stops: it returns to its caller, and its deferred calls run, or the
process ends in `os.Exit`, and they do not. -/
inductive Outcome where
  | returned
  | exited (code : Nat)
  deriving DecidableEq, Repr

/-- The events of a run and the way it stopped. -/
structure Run where
  events : List Event
  outcome : Outcome
  deriving DecidableEq, Repr

/-- The call `log.Fatal` or `log.Fatalf`: the message is logged, then `os.Exit(1)`. -/
def logFatal (msg : Msg) : Run :=
  { events := [Event.log msg, Event.exit 1], outcome := Outcome.exited 1 }

/-- The deferred calls of a function run when it returns, not when the process exits. -/
def runDeferred (deferred : List Event) : Outcome → List Event
  | Outcome.returned => deferred
  | Outcome.exited _ => []

/-- The `for` loop of `Listen`.  `inbound` holds the messages the channel delivers before
`ReadMessage` fails; `fwd i` is the outcome of the `i`-th forward request; `i` is the number
of requests made so far. -/
def relayLoop (forwardURL : Bytes) (fwd : Nat → HttpResult) : List Bytes → Nat → Run
  | [], _ =>
    let fatal := logFatal Msg.closedUnexpectedly
    { events := Event.read :: fatal.events, outcome := fatal.outcome }
  | message :: inbound, i =>
    let evs := [Event.read, Event.stdout Msg.receivedWebhook,
      Event.stdout (Msg.payload message), Event.post forwardURL applicationJSON message]
    match fwd i with
    | HttpResult.failure cause =>
      let r := relayLoop forwardURL fwd inbound (i + 1)
      { events := evs ++ Event.log (Msg.forwardFailed cause) :: r.events, outcome := r.outcome }
    | HttpResult.response _ _ =>
      let r := relayLoop forwardURL fwd inbound (i + 1)
      { events := evs ++ Event.bodyClose :: r.events, outcome := r.outcome }

/-- The function `Listen` connects to WebSocket and forwards webhooks.  `ws url` is the
outcome of dialling `url`: `none` when the dial fails, otherwise the messages the
connection delivers before a read fails. -/
def Listen (ws : Bytes → Option (List Bytes)) (fwd : Nat → HttpResult)
    (forwardURL token : Bytes) : Run :=
  let url := websocketBaseURL ++ ascii "?token=" ++ token
  let start := [Event.stdout Msg.startingListener, Event.dial url]
  match ws url with
  | none =>
    let fatal := logFatal Msg.connectFailed
    { events := start ++ fatal.events, outcome := fatal.outcome }
  | some inbound =>
    let deferred := [Event.connClose]
    let r := relayLoop forwardURL fwd inbound 0
    { events := start ++ [Event.stdout Msg.listenerStarted,
        Event.stdout (Msg.forwardingTo forwardURL)] ++ r.events ++ runDeferred deferred r.outcome,
      outcome := r.outcome }

/-- The `Run` function of the `listen` command in `main`. -/
def listenCmd (env : Env) (ws : Bytes → Option (List Bytes)) (fwd : Nat → HttpResult)
    (forwardURL : Bytes) : Run :=
  match ReadConfig env with
  | Except.error err => logFatal (Msg.readConfigFailed err)
  | Except.ok config =>
    if config.Token = [] then logFatal Msg.notLoggedIn
    else Listen ws fwd forwardURL config.Token

/-! ## Well-formed UTF-8 sequences -/

/-- A well-formed two-byte sequence: the ranges that `decodeRune` accepts. -/
def IsTwo (b b1 : Byte) : Prop :=
  0xC2 ≤ b.val ∧ b.val ≤ 0xDF ∧ 0x80 ≤ b1.val ∧ b1.val ≤ 0xBF

/-- A well-formed three-byte sequence: no overlong form (`0xE0` needs a second byte from
`0xA0`) and no surrogate (`0xED` needs one up to `0x9F`). -/
def IsThree (b b1 b2 : Byte) : Prop :=
  0xE0 ≤ b.val ∧ b.val ≤ 0xEF ∧ 0x80 ≤ b1.val ∧ b1.val ≤ 0xBF
    ∧ (b.val = 0xE0 → 0xA0 ≤ b1.val) ∧ (b.val = 0xED → b1.val ≤ 0x9F)
    ∧ 0x80 ≤ b2.val ∧ b2.val ≤ 0xBF

/-- A well-formed four-byte sequence: no overlong form (`0xF0` needs a second byte from
`0x90`) and nothing above U+10FFFF (`0xF4` needs one up to `0x8F`). -/
def IsFour (b b1 b2 b3 : Byte) : Prop :=
  0xF0 ≤ b.val ∧ b.val ≤ 0xF4 ∧ 0x80 ≤ b1.val ∧ b1.val ≤ 0xBF
    ∧ (b.val = 0xF0 → 0x90 ≤ b1.val) ∧ (b.val = 0xF4 → b1.val ≤ 0x8F)
    ∧ 0x80 ≤ b2.val ∧ b2.val ≤ 0xBF ∧ 0x80 ≤ b3.val ∧ b3.val ≤ 0xBF

/-! ## Inputs used in the examples -/

/-- The key looked up in a poll response. -/
def tokenKey : Bytes := ascii "token"

/-- A poll attempt is pending: a response came back, and it has a status other than 200 or
a body without a `token` entry. -/
def Pending (r : HttpResult) : Prop :=
  ∃ status body, r = HttpResult.response status body ∧
    (status ≠ 200 ∨ mapGet (decodeStringMap body) tokenKey = none)

/-- The body `{}`. -/
def emptyObjectBody : Bytes := [0x7B, 0x7D]

/-- The body `{"token":"abc"}`. -/
def abcTokenBody : Bytes := [0x7B] ++ ascii "\"token\":\"abc\"" ++ [0x7D]

/-- The body `{"token":""}`. -/
def emptyTokenBody : Bytes := [0x7B] ++ ascii "\"token\":\"\"" ++ [0x7D]

/-- Attempts 1 and 2 answer 202 with `{}`, every later attempt answers 200 with
`{"token":"abc"}`. -/
def thirdAttemptNet : Nat → HttpResult := fun i =>
  if i < 2 then HttpResult.response 202 emptyObjectBody
  else HttpResult.response 200 abcTokenBody

/-- Attempt 1 answers 200 with `{"token":""}`, every later attempt answers 200 with
`{"token":"abc"}`. -/
def emptyThenAbcNet : Nat → HttpResult := fun i =>
  if i = 0 then HttpResult.response 200 emptyTokenBody
  else HttpResult.response 200 abcTokenBody

/-- Every attempt answers 200 with `{"token":""}`. -/
def emptyTokenNet : Nat → HttpResult := fun _ => HttpResult.response 200 emptyTokenBody

/-- Every attempt answers 202 with `{}`. -/
def alwaysPendingNet : Nat → HttpResult := fun _ => HttpResult.response 202 emptyObjectBody

/-- Attempts 1 and 2 answer 202 with `{}`, attempt 3 fails at the transport level. -/
def thirdAttemptFailsNet : Nat → HttpResult := fun i =>
  if i < 2 then HttpResult.response 202 emptyObjectBody else HttpResult.failure 7

/-- Attempt 1 answers 202 with `{}`, every later attempt answers 200 with `{"token":""}`. -/
def pendingThenEmptyTokenNet : Nat → HttpResult := fun i =>
  if i = 0 then HttpResult.response 202 emptyObjectBody
  else HttpResult.response 200 emptyTokenBody

/-- Attempt 1 answers 200 with `{"token":""}`, every later attempt fails at the transport
level. -/
def emptyTokenThenFailureNet : Nat → HttpResult := fun i =>
  if i = 0 then HttpResult.response 200 emptyTokenBody else HttpResult.failure 7

/-- A device code. -/
def sampleDeviceCode : Bytes := ascii "dc-1"

/-- A home directory without a credential file, where every write succeeds. -/
def freshEnv : Env :=
  { homeDir := some (ascii "/home/dev")
    join := fun dir name => dir ++ ascii "/" ++ name
    readFile := fun _ => Except.error ReadError.notExist
    writable := fun _ => true
    fold := fun _ => false }

/-- The message `{"event":"charge.paid"}`. -/
def chargePaid : Bytes := [0x7B] ++ ascii "\"event\":\"charge.paid\"" ++ [0x7D]

/-- A local URL to forward to. -/
def sampleForwardURL : Bytes := ascii "http://localhost:3000/webhook"

/-! ## Theorems: UTF-8 -/

theorem hexVal_hex : ∀ n, n < 16 → hexVal (hex n).val = some n := by decide

theorem leadSize_le (p : Nat) : leadSize p ≤ 4 := by
  unfold leadSize; split_ifs <;> omega

/-- The function `decodeRune` reads at most four bytes. -/
theorem decodeRune_take4 (s : Bytes) : decodeRune (s.take 4) = decodeRune s := by
  rcases s with _ | ⟨a, _ | ⟨b, _ | ⟨c, _ | ⟨d, tl⟩⟩⟩⟩
  · rfl
  · rfl
  · rfl
  · rfl
  · have h := leadSize_le a.val
    simp only [List.take_succ_cons, List.take_zero, decodeRune, List.length_cons, List.length_nil]
    have e1 : ¬ (0 + 1 + 1 + 1 + 1 < leadSize a.val) := by omega
    have e2 : ¬ (tl.length + 1 + 1 + 1 + 1 < leadSize a.val) := by omega
    simp only [e1, e2, if_false]

theorem decodeRune_two (b b1 : Byte) (tl : Bytes) (h : IsTwo b b1) :
    decodeRune (b :: b1 :: tl) = ((b.val % 32) * 64 + b1.val % 64, 2) := by
  obtain ⟨h1, h2, h3, h4⟩ := h
  have c1 : ¬ b.val < 0x80 := by omega
  have c2 : ¬ (b.val < 0xC2 ∨ 0xF4 < b.val) := by omega
  have c3 : leadSize b.val = 2 := by unfold leadSize; rw [if_pos (by omega)]
  have c4 : acceptLo b.val = 0x80 := by
    unfold acceptLo; rw [if_neg (by omega), if_neg (by omega)]
  have c5 : acceptHi b.val = 0xBF := by
    unfold acceptHi; rw [if_neg (by omega), if_neg (by omega)]
  have c6 : ¬ (b1.val < 0x80 ∨ 0xBF < b1.val) := by omega
  simp only [decodeRune, c1, c2, c3, c4, c5, c6, if_false, List.length_cons]
  simp

theorem decodeRune_three (b b1 b2 : Byte) (tl : Bytes) (h : IsThree b b1 b2) :
    decodeRune (b :: b1 :: b2 :: tl)
      = ((b.val % 16) * 4096 + (b1.val % 64) * 64 + b2.val % 64, 3) := by
  obtain ⟨h1, h2, h3, h4, h5, h6, h7, h8⟩ := h
  have c1 : ¬ b.val < 0x80 := by omega
  have c2 : ¬ (b.val < 0xC2 ∨ 0xF4 < b.val) := by omega
  have c3 : leadSize b.val = 3 := by
    unfold leadSize; rw [if_neg (by omega), if_pos (by omega)]
  have c6 : ¬ (b1.val < acceptLo b.val ∨ acceptHi b.val < b1.val) := by
    unfold acceptLo acceptHi; split_ifs <;> omega
  have c7 : ¬ (b2.val < 0x80 ∨ 0xBF < b2.val) := by omega
  simp only [decodeRune, c1, c2, c3, c6, c7, if_false, List.length_cons]
  simp

theorem decodeRune_four (b b1 b2 b3 : Byte) (tl : Bytes) (h : IsFour b b1 b2 b3) :
    decodeRune (b :: b1 :: b2 :: b3 :: tl)
      = ((b.val % 8) * 262144 + (b1.val % 64) * 4096 + (b2.val % 64) * 64 + b3.val % 64, 4) := by
  obtain ⟨h1, h2, h3, h4, h5, h6, h7, h8, h9, h10⟩ := h
  have c1 : ¬ b.val < 0x80 := by omega
  have c2 : ¬ (b.val < 0xC2 ∨ 0xF4 < b.val) := by omega
  have c3 : leadSize b.val = 4 := by
    unfold leadSize; rw [if_neg (by omega), if_neg (by omega)]
  have c6 : ¬ (b1.val < acceptLo b.val ∨ acceptHi b.val < b1.val) := by
    unfold acceptLo acceptHi; split_ifs <;> omega
  have c7 : ¬ (b2.val < 0x80 ∨ 0xBF < b2.val) := by omega
  have c8 : ¬ (b3.val < 0x80 ∨ 0xBF < b3.val) := by omega
  simp only [decodeRune, c1, c2, c3, c6, c7, c8, if_false, List.length_cons]
  simp

/-- A non-ASCII position that does not decode to an encoding error starts a well-formed
sequence of two, three or four bytes. -/
theorem decodeRune_cases (b : Byte) (rest : Bytes) (hb : ¬ b.val < 0x80)
    (hv : ¬ ((decodeRune (b :: rest)).1 = RuneError ∧ (decodeRune (b :: rest)).2 = 1)) :
    (∃ b1 tl, rest = b1 :: tl ∧ IsTwo b b1)
    ∨ (∃ b1 b2 tl, rest = b1 :: b2 :: tl ∧ IsThree b b1 b2)
    ∨ (∃ b1 b2 b3 tl, rest = b1 :: b2 :: b3 :: tl ∧ IsFour b b1 b2 b3) := by
  by_cases c2 : b.val < 0xC2 ∨ 0xF4 < b.val
  · exact absurd (by simp [decodeRune, hb, c2]) hv
  by_cases c3 : rest.length + 1 < leadSize b.val
  · exact absurd (by simp [decodeRune, hb, c2, c3]) hv
  rcases rest with _ | ⟨b1, rest1⟩
  · exact absurd (by simp [decodeRune, hb, c2]) hv
  by_cases c4 : b1.val < acceptLo b.val ∨ acceptHi b.val < b1.val
  · exact absurd (by simp [decodeRune, hb, c2, c3, c4]) hv
  have hlo : 0x80 ≤ acceptLo b.val := by unfold acceptLo; split_ifs <;> omega
  have hhi : acceptHi b.val ≤ 0xBF := by unfold acceptHi; split_ifs <;> omega
  have hE0 : b.val = 0xE0 → 0xA0 ≤ b1.val := by
    intro h; have : acceptLo b.val = 0xA0 := by unfold acceptLo; rw [if_pos h]
    omega
  have hED : b.val = 0xED → b1.val ≤ 0x9F := by
    intro h; have : acceptHi b.val = 0x9F := by unfold acceptHi; rw [if_pos h]
    omega
  have hF0 : b.val = 0xF0 → 0x90 ≤ b1.val := by
    intro h
    have : acceptLo b.val = 0x90 := by unfold acceptLo; rw [if_neg (by omega), if_pos h]
    omega
  have hF4 : b.val = 0xF4 → b1.val ≤ 0x8F := by
    intro h
    have : acceptHi b.val = 0x8F := by unfold acceptHi; rw [if_neg (by omega), if_pos h]
    omega
  by_cases s2 : leadSize b.val ≤ 2
  · left
    have : b.val < 0xE0 := by
      by_contra hc; unfold leadSize at s2; rw [if_neg hc] at s2; split_ifs at s2 <;> omega
    exact ⟨b1, rest1, rfl, by unfold IsTwo; omega⟩
  rcases rest1 with _ | ⟨b2, rest2⟩
  · exact absurd (by simp [decodeRune, hb, c2, c3, c4, s2]) hv
  by_cases c5 : b2.val < 0x80 ∨ 0xBF < b2.val
  · exact absurd (by simp [decodeRune, hb, c2, c3, c4, s2, c5]) hv
  have hge : 0xE0 ≤ b.val := by
    by_contra hc; unfold leadSize at s2; rw [if_pos (by omega)] at s2; omega
  by_cases s3 : leadSize b.val ≤ 3
  · right; left
    have : b.val < 0xF0 := by
      by_contra hc; unfold leadSize at s3; rw [if_neg (by omega), if_neg hc] at s3; omega
    exact ⟨b1, b2, rest2, rfl, by unfold IsThree; omega⟩
  rcases rest2 with _ | ⟨b3, rest3⟩
  · exact absurd (by simp [decodeRune, hb, c2, c3, c4, s2, c5, s3]) hv
  by_cases c6 : b3.val < 0x80 ∨ 0xBF < b3.val
  · exact absurd (by simp [decodeRune, hb, c2, c3, c4, s2, c5, s3, c6]) hv
  have hge2 : 0xF0 ≤ b.val := by
    by_contra hc; unfold leadSize at s3; rw [if_neg (by omega), if_pos (by omega)] at s3; omega
  right; right
  exact ⟨b1, b2, b3, rest3, rfl, by unfold IsFour; omega⟩

theorem encodeRune_two (b b1 : Byte) (h : IsTwo b b1) :
    encodeRune ((b.val % 32) * 64 + b1.val % 64) = [b, b1] := by
  obtain ⟨h1, h2, h3, h4⟩ := h
  unfold encodeRune
  rw [if_neg (by omega), if_pos (by omega)]
  have e1 : byte (0xC0 + ((b.val % 32) * 64 + b1.val % 64) / 64) = b := by
    apply Fin.ext; simp only [byte]; omega
  have e2 : byte (0x80 + ((b.val % 32) * 64 + b1.val % 64) % 64) = b1 := by
    apply Fin.ext; simp only [byte]; omega
  rw [e1, e2]

theorem encodeRune_three (b b1 b2 : Byte) (h : IsThree b b1 b2) :
    encodeRune ((b.val % 16) * 4096 + (b1.val % 64) * 64 + b2.val % 64) = [b, b1, b2] := by
  obtain ⟨h1, h2, h3, h4, h5, h6, h7, h8⟩ := h
  unfold encodeRune MaxRune
  rw [if_neg (by omega), if_neg (by omega), if_neg (by omega), if_pos (by omega)]
  have e1 : byte (0xE0 + ((b.val % 16) * 4096 + (b1.val % 64) * 64 + b2.val % 64) / 4096) = b := by
    apply Fin.ext; simp only [byte]; omega
  have e2 : byte (0x80 + (((b.val % 16) * 4096 + (b1.val % 64) * 64 + b2.val % 64) / 64) % 64)
      = b1 := by
    apply Fin.ext; simp only [byte]; omega
  have e3 : byte (0x80 + ((b.val % 16) * 4096 + (b1.val % 64) * 64 + b2.val % 64) % 64) = b2 := by
    apply Fin.ext; simp only [byte]; omega
  rw [e1, e2, e3]

theorem encodeRune_four (b b1 b2 b3 : Byte) (h : IsFour b b1 b2 b3) :
    encodeRune ((b.val % 8) * 262144 + (b1.val % 64) * 4096 + (b2.val % 64) * 64 + b3.val % 64)
      = [b, b1, b2, b3] := by
  obtain ⟨h1, h2, h3, h4, h5, h6, h7, h8, h9, h10⟩ := h
  unfold encodeRune MaxRune
  rw [if_neg (by omega), if_neg (by omega), if_neg (by omega), if_neg (by omega)]
  have e1 : byte (0xF0 + ((b.val % 8) * 262144 + (b1.val % 64) * 4096 + (b2.val % 64) * 64
      + b3.val % 64) / 262144) = b := by
    apply Fin.ext; simp only [byte]; omega
  have e2 : byte (0x80 + (((b.val % 8) * 262144 + (b1.val % 64) * 4096 + (b2.val % 64) * 64
      + b3.val % 64) / 4096) % 64) = b1 := by
    apply Fin.ext; simp only [byte]; omega
  have e3 : byte (0x80 + (((b.val % 8) * 262144 + (b1.val % 64) * 4096 + (b2.val % 64) * 64
      + b3.val % 64) / 64) % 64) = b2 := by
    apply Fin.ext; simp only [byte]; omega
  have e4 : byte (0x80 + ((b.val % 8) * 262144 + (b1.val % 64) * 4096 + (b2.val % 64) * 64
      + b3.val % 64) % 64) = b3 := by
    apply Fin.ext; simp only [byte]; omega
  rw [e1, e2, e3, e4]

/-! ## Theorems: one item of a JSON string -/

/-- A byte that the scanner accepts inside a string literal as it stands. -/
theorem scanString_plain (c : Byte) (xs : Bytes)
    (h1 : c.val ≠ 0x22) (h2 : c.val ≠ 0x5C) (h3 : ¬ c.val < 0x20) :
    scanString (c :: xs) = (scanString xs).map (fun p => (c :: p.1, p.2)) := by
  rw [scanString.eq_def]
  simp only [h1, h2, h3, if_false]

theorem scanString_esc (e : Byte) (xs : Bytes)
    (he : e.val = 0x62 ∨ e.val = 0x66 ∨ e.val = 0x6E ∨ e.val = 0x72 ∨ e.val = 0x74
      ∨ e.val = 0x5C ∨ e.val = 0x2F ∨ e.val = 0x22) :
    scanString (0x5C :: e :: xs) = (scanString xs).map (fun p => (0x5C :: e :: p.1, p.2)) := by
  rw [scanString.eq_def]
  simp [he, Fin.coe_ofNat_eq_mod]

theorem scanString_u (h1 h2 h3 h4 : Byte) (xs : Bytes)
    (e1 : (hexVal h1.val).isSome) (e2 : (hexVal h2.val).isSome)
    (e3 : (hexVal h3.val).isSome) (e4 : (hexVal h4.val).isSome) :
    scanString (0x5C :: 0x75 :: h1 :: h2 :: h3 :: h4 :: xs)
      = (scanString xs).map (fun p => (0x5C :: 0x75 :: h1 :: h2 :: h3 :: h4 :: p.1, p.2)) := by
  rw [scanString.eq_def]
  simp [e1, e2, e3, e4, Fin.coe_ofNat_eq_mod]

theorem unquoteStep_plain (c : Byte) (xs : Bytes)
    (h1 : c.val ≠ 0x22) (h2 : c.val ≠ 0x5C) (h3 : ¬ c.val < 0x20) (h4 : c.val < 0x80) :
    unquoteStep c xs = some ([c], xs) := by
  have h5 : ¬ (c.val = 0x22 ∨ c.val < 0x20) := by omega
  simp only [unquoteStep, h2, h5, h4, if_false, if_true]

theorem unquoteStep_raw (c : Byte) (xs : Bytes) (h : ¬ c.val < 0x80) :
    unquoteStep c xs
      = some (encodeRune (decodeRune (c :: xs)).1, xs.drop ((decodeRune (c :: xs)).2 - 1)) := by
  have h2 : c.val ≠ 0x5C := by omega
  have h5 : ¬ (c.val = 0x22 ∨ c.val < 0x20) := by omega
  simp only [unquoteStep, h2, h5, h, if_false]

theorem unquoteStep_esc (e out : Byte) (xs : Bytes)
    (h : (e.val = 0x22 ∧ out = e) ∨ (e.val = 0x5C ∧ out = e) ∨ (e.val = 0x62 ∧ out = 0x08)
      ∨ (e.val = 0x66 ∧ out = 0x0C) ∨ (e.val = 0x6E ∧ out = 0x0A) ∨ (e.val = 0x72 ∧ out = 0x0D)
      ∨ (e.val = 0x74 ∧ out = 0x09)) :
    unquoteStep 0x5C (e :: xs) = some ([out], xs) := by
  rcases h with ⟨h, rfl⟩ | ⟨h, rfl⟩ | ⟨h, rfl⟩ | ⟨h, rfl⟩ | ⟨h, rfl⟩ | ⟨h, rfl⟩ | ⟨h, rfl⟩ <;>
    simp [unquoteStep, h, Fin.coe_ofNat_eq_mod]

theorem unquoteStep_u (h1 h2 h3 h4 : Byte) (xs : Bytes) (v : Nat)
    (hv : getu4 (0x5C :: 0x75 :: h1 :: h2 :: h3 :: h4 :: xs) = some v)
    (hs : ¬ (0xD800 ≤ v ∧ v < 0xE000)) :
    unquoteStep 0x5C (0x75 :: h1 :: h2 :: h3 :: h4 :: xs) = some (encodeRune v, xs) := by
  unfold unquoteStep
  simp only [hv]
  simp [hs, Fin.coe_ofNat_eq_mod]

theorem getu4_hex (a b c d : Nat) (xs : Bytes) (ha : a < 16) (hb : b < 16) (hc : c < 16)
    (hd : d < 16) :
    getu4 (0x5C :: 0x75 :: hex a :: hex b :: hex c :: hex d :: xs)
      = some (((a * 16 + b) * 16 + c) * 16 + d) := by
  simp [getu4, hexVal_hex, ha, hb, hc, hd, Fin.coe_ofNat_eq_mod]

theorem unquoteAux_step (m : Nat) (c : Byte) (xs out left : Bytes)
    (h : unquoteStep c xs = some (out, left)) :
    unquoteAux (m + 1) (c :: xs) = (unquoteAux m left).map (fun t => out ++ t) := by
  rw [unquoteAux, h]

theorem byte_val (b : Byte) : byte b.val = b := by
  apply Fin.ext; simp only [byte]; omega

theorem encodeRune_ascii (b : Byte) (h : b.val < 0x80) : encodeRune b.val = [b] := by
  unfold encodeRune
  rw [if_pos (by omega), byte_val]

/-- What one iteration of the encoder writes is one item for the scanner and for the decoder:
the scanner passes over `chunk`, and when the input is valid UTF-8 the decoder turns `chunk`
back into the bytes `orig` that the encoder consumed. -/
theorem escapeAux_step (n : Nat) (b : Byte) (rest : Bytes) :
    ∃ chunk orig left,
      escapeAux (n + 1) (b :: rest) = chunk ++ escapeAux n left
      ∧ b :: rest = orig ++ left
      ∧ 1 ≤ orig.length
      ∧ 1 ≤ chunk.length
      ∧ (∀ xs, scanString (chunk ++ xs) = (scanString xs).map (fun p => (chunk ++ p.1, p.2)))
      ∧ (∀ k, validAux (k + 1) (b :: rest) = true →
          validAux k left = true
          ∧ ∀ m xs, unquoteAux (m + 1) (chunk ++ xs)
              = (unquoteAux m xs).map (fun t => orig ++ t)) := by
  by_cases hb : b.val < 0x80
  · -- an ASCII byte
    have hvalid : ∀ k, validAux (k + 1) (b :: rest) = true → validAux k rest = true := by
      intro k hk; rw [validAux, if_pos hb] at hk; exact hk
    by_cases hsafe : htmlSafeSet b.val = true
    · have hs := hsafe
      simp only [htmlSafeSet, decide_eq_true_eq] at hs
      refine ⟨[b], [b], rest, by rw [escapeAux, if_pos hb, if_pos hsafe]; rfl, rfl, by simp,
        by simp, ?_, ?_⟩
      · intro xs
        exact scanString_plain b xs (by omega) (by omega) (by omega)
      · intro k hk
        refine ⟨hvalid k hk, fun m xs => ?_⟩
        exact unquoteAux_step m b xs [b] xs
          (unquoteStep_plain b xs (by omega) (by omega) (by omega) hb)
    by_cases hq : b.val = 0x5C ∨ b.val = 0x22
    · refine ⟨[0x5C, b], [b], rest, by rw [escapeAux, if_pos hb, if_neg hsafe, if_pos hq]; rfl,
        rfl, by simp, by simp, ?_, ?_⟩
      · intro xs
        exact scanString_esc b xs (by omega)
      · intro k hk
        refine ⟨hvalid k hk, fun m xs => ?_⟩
        exact unquoteAux_step m 0x5C (b :: xs) [b] xs (unquoteStep_esc b b xs (by tauto))
    by_cases h08 : b.val = 0x08
    · have hbe : b = 0x08 := Fin.ext h08
      refine ⟨[0x5C, 0x62], [b], rest,
        by rw [escapeAux, if_pos hb, if_neg hsafe, if_neg hq, if_pos h08]; rfl,
        rfl, by simp, by simp, ?_, ?_⟩
      · intro xs
        exact scanString_esc 0x62 xs (by decide)
      · intro k hk
        refine ⟨hvalid k hk, fun m xs => ?_⟩
        exact unquoteAux_step m 0x5C (0x62 :: xs) [b] xs
          (unquoteStep_esc 0x62 b xs (by subst hbe; decide))
    by_cases h0C : b.val = 0x0C
    · have hbe : b = 0x0C := Fin.ext h0C
      refine ⟨[0x5C, 0x66], [b], rest,
        by rw [escapeAux, if_pos hb, if_neg hsafe, if_neg hq, if_neg h08, if_pos h0C]; rfl,
        rfl, by simp, by simp, ?_, ?_⟩
      · intro xs
        exact scanString_esc 0x66 xs (by decide)
      · intro k hk
        refine ⟨hvalid k hk, fun m xs => ?_⟩
        exact unquoteAux_step m 0x5C (0x66 :: xs) [b] xs
          (unquoteStep_esc 0x66 b xs (by subst hbe; decide))
    by_cases h0A : b.val = 0x0A
    · have hbe : b = 0x0A := Fin.ext h0A
      refine ⟨[0x5C, 0x6E], [b], rest,
        by rw [escapeAux, if_pos hb, if_neg hsafe, if_neg hq, if_neg h08, if_neg h0C,
          if_pos h0A]; rfl,
        rfl, by simp, by simp, ?_, ?_⟩
      · intro xs
        exact scanString_esc 0x6E xs (by decide)
      · intro k hk
        refine ⟨hvalid k hk, fun m xs => ?_⟩
        exact unquoteAux_step m 0x5C (0x6E :: xs) [b] xs
          (unquoteStep_esc 0x6E b xs (by subst hbe; decide))
    by_cases h0D : b.val = 0x0D
    · have hbe : b = 0x0D := Fin.ext h0D
      refine ⟨[0x5C, 0x72], [b], rest,
        by rw [escapeAux, if_pos hb, if_neg hsafe, if_neg hq, if_neg h08, if_neg h0C,
          if_neg h0A, if_pos h0D]; rfl,
        rfl, by simp, by simp, ?_, ?_⟩
      · intro xs
        exact scanString_esc 0x72 xs (by decide)
      · intro k hk
        refine ⟨hvalid k hk, fun m xs => ?_⟩
        exact unquoteAux_step m 0x5C (0x72 :: xs) [b] xs
          (unquoteStep_esc 0x72 b xs (by subst hbe; decide))
    by_cases h09 : b.val = 0x09
    · have hbe : b = 0x09 := Fin.ext h09
      refine ⟨[0x5C, 0x74], [b], rest,
        by rw [escapeAux, if_pos hb, if_neg hsafe, if_neg hq, if_neg h08, if_neg h0C,
          if_neg h0A, if_neg h0D, if_pos h09]; rfl,
        rfl, by simp, by simp, ?_, ?_⟩
      · intro xs
        exact scanString_esc 0x74 xs (by decide)
      · intro k hk
        refine ⟨hvalid k hk, fun m xs => ?_⟩
        exact unquoteAux_step m 0x5C (0x74 :: xs) [b] xs
          (unquoteStep_esc 0x74 b xs (by subst hbe; decide))
    · -- the escape `\u00XY`
      have hhi : b.val / 16 < 16 := by omega
      have hlo : b.val % 16 < 16 := by omega
      have h30 : (0x30 : Byte) = hex 0 := by decide
      refine ⟨[0x5C, 0x75, 0x30, 0x30, hex (b.val / 16), hex (b.val % 16)], [b], rest,
        by rw [escapeAux, if_pos hb, if_neg hsafe, if_neg hq, if_neg h08, if_neg h0C,
          if_neg h0A, if_neg h0D, if_neg h09]; rfl,
        rfl, by simp, by simp, ?_, ?_⟩
      · intro xs
        exact scanString_u 0x30 0x30 (hex (b.val / 16)) (hex (b.val % 16)) xs (by decide)
          (by decide) (by rw [hexVal_hex _ hhi]; rfl) (by rw [hexVal_hex _ hlo]; rfl)
      · intro k hk
        refine ⟨hvalid k hk, fun m xs => ?_⟩
        have hg : getu4 (0x5C :: 0x75 :: 0x30 :: 0x30 :: hex (b.val / 16) :: hex (b.val % 16) :: xs)
            = some b.val := by
          rw [h30, getu4_hex 0 0 (b.val / 16) (b.val % 16) xs (by omega) (by omega) hhi hlo]
          congr 1; omega
        have hstep := unquoteStep_u 0x30 0x30 (hex (b.val / 16)) (hex (b.val % 16)) xs b.val hg
          (by omega)
        rw [encodeRune_ascii b hb] at hstep
        exact unquoteAux_step m 0x5C _ [b] xs hstep
  · -- a byte outside ASCII
    have hunfold : escapeAux (n + 1) (b :: rest)
        = if (decodeRune (b :: rest)).1 = RuneError ∧ (decodeRune (b :: rest)).2 = 1 then
            0x5C :: 0x75 :: 0x66 :: 0x66 :: 0x66 :: 0x64 :: escapeAux n rest
          else if (decodeRune (b :: rest)).1 = 0x2028 ∨ (decodeRune (b :: rest)).1 = 0x2029 then
            0x5C :: 0x75 :: 0x32 :: 0x30 :: 0x32 :: hex ((decodeRune (b :: rest)).1 % 16)
              :: escapeAux n (rest.drop ((decodeRune (b :: rest)).2 - 1))
          else
            (b :: rest).take (decodeRune (b :: rest)).2
              ++ escapeAux n (rest.drop ((decodeRune (b :: rest)).2 - 1)) := by
      rw [escapeAux, if_neg hb, decodeRune_take4]
    have hvunfold : ∀ k, validAux (k + 1) (b :: rest)
        = if (decodeRune (b :: rest)).1 = RuneError ∧ (decodeRune (b :: rest)).2 = 1 then false
          else validAux k (rest.drop ((decodeRune (b :: rest)).2 - 1)) := by
      intro k; rw [validAux, if_neg hb]
    by_cases herr : (decodeRune (b :: rest)).1 = RuneError ∧ (decodeRune (b :: rest)).2 = 1
    · refine ⟨[0x5C, 0x75, 0x66, 0x66, 0x66, 0x64], [b], rest,
        by rw [hunfold, if_pos herr]; rfl, rfl, by simp, by simp, ?_, ?_⟩
      · intro xs
        exact scanString_u 0x66 0x66 0x66 0x64 xs (by decide) (by decide) (by decide) (by decide)
      · intro k hk
        rw [hvunfold, if_pos herr] at hk
        cases hk
    · have hplain : ∀ c : Byte, 0x80 ≤ c.val → ∀ xs,
          scanString (c :: xs) = (scanString xs).map (fun p => (c :: p.1, p.2)) :=
        fun c hc xs => scanString_plain c xs (by omega) (by omega) (by omega)
      rcases decodeRune_cases b rest hb herr with
        ⟨b1, tl, rfl, h2⟩ | ⟨b1, b2, tl, rfl, h3⟩ | ⟨b1, b2, b3, tl, rfl, h4⟩
      · -- two bytes
        have hd := decodeRune_two b b1 tl h2
        have henc := encodeRune_two b b1 h2
        obtain ⟨g1, g2, g3, g4⟩ := h2
        have hnot : ¬ ((b.val % 32) * 64 + b1.val % 64 = 0x2028
            ∨ (b.val % 32) * 64 + b1.val % 64 = 0x2029) := by omega
        refine ⟨[b, b1], [b, b1], tl, ?_, rfl, by simp, by simp, ?_, ?_⟩
        · rw [hunfold, if_neg herr, hd]
          simp only [hnot, if_false]
          rfl
        · intro xs
          simp only [List.cons_append, List.nil_append]
          rw [hplain b (by omega), hplain b1 (by omega)]
          cases scanString xs <;> rfl
        · intro k hk
          rw [hvunfold, if_neg herr, hd] at hk
          refine ⟨hk, fun m xs => ?_⟩
          have hstep := unquoteStep_raw b (b1 :: xs) hb
          rw [decodeRune_two b b1 xs ⟨g1, g2, g3, g4⟩, henc] at hstep
          exact unquoteAux_step m b _ [b, b1] xs hstep
      · -- three bytes
        have hd := decodeRune_three b b1 b2 tl h3
        have henc := encodeRune_three b b1 b2 h3
        by_cases hsep : (b.val % 16) * 4096 + (b1.val % 64) * 64 + b2.val % 64 = 0x2028
            ∨ (b.val % 16) * 4096 + (b1.val % 64) * 64 + b2.val % 64 = 0x2029
        · have hlo : ((b.val % 16) * 4096 + (b1.val % 64) * 64 + b2.val % 64) % 16 < 16 := by
            omega
          have h32 : (0x32 : Byte) = hex 2 := by decide
          have h30 : (0x30 : Byte) = hex 0 := by decide
          refine ⟨[0x5C, 0x75, 0x32, 0x30, 0x32,
              hex (((b.val % 16) * 4096 + (b1.val % 64) * 64 + b2.val % 64) % 16)],
            [b, b1, b2], tl, ?_, rfl, by simp, by simp, ?_, ?_⟩
          · rw [hunfold, if_neg herr, hd]
            simp only [hsep, if_true]
            rfl
          · intro xs
            exact scanString_u 0x32 0x30 0x32 _ xs (by decide) (by decide) (by decide)
              (by rw [hexVal_hex _ hlo]; rfl)
          · intro k hk
            rw [hvunfold, if_neg herr, hd] at hk
            refine ⟨hk, fun m xs => ?_⟩
            have hg : getu4 (0x5C :: 0x75 :: 0x32 :: 0x30 :: 0x32
                :: hex (((b.val % 16) * 4096 + (b1.val % 64) * 64 + b2.val % 64) % 16) :: xs)
                = some ((b.val % 16) * 4096 + (b1.val % 64) * 64 + b2.val % 64) := by
              rw [h32, h30, getu4_hex 2 0 2 _ xs (by omega) (by omega) (by omega) hlo]
              congr 1; omega
            have hstep := unquoteStep_u 0x32 0x30 0x32 _ xs _ hg (by omega)
            rw [henc] at hstep
            exact unquoteAux_step m 0x5C _ [b, b1, b2] xs hstep
        · obtain ⟨g1, g2, g3, g4, g5, g6, g7, g8⟩ := h3
          refine ⟨[b, b1, b2], [b, b1, b2], tl, ?_, rfl, by simp, by simp, ?_, ?_⟩
          · rw [hunfold, if_neg herr, hd]
            simp only [hsep, if_false]
            rfl
          · intro xs
            simp only [List.cons_append, List.nil_append]
            rw [hplain b (by omega), hplain b1 (by omega), hplain b2 (by omega)]
            cases scanString xs <;> rfl
          · intro k hk
            rw [hvunfold, if_neg herr, hd] at hk
            refine ⟨hk, fun m xs => ?_⟩
            have hstep := unquoteStep_raw b (b1 :: b2 :: xs) hb
            rw [decodeRune_three b b1 b2 xs ⟨g1, g2, g3, g4, g5, g6, g7, g8⟩, henc] at hstep
            exact unquoteAux_step m b _ [b, b1, b2] xs hstep
      · -- four bytes
        have hd := decodeRune_four b b1 b2 b3 tl h4
        have henc := encodeRune_four b b1 b2 b3 h4
        obtain ⟨g1, g2, g3, g4, g5, g6, g7, g8, g9, g10⟩ := h4
        have hnot : ¬ ((b.val % 8) * 262144 + (b1.val % 64) * 4096 + (b2.val % 64) * 64
              + b3.val % 64 = 0x2028
            ∨ (b.val % 8) * 262144 + (b1.val % 64) * 4096 + (b2.val % 64) * 64
              + b3.val % 64 = 0x2029) := by omega
        refine ⟨[b, b1, b2, b3], [b, b1, b2, b3], tl, ?_, rfl, by simp, by simp, ?_, ?_⟩
        · rw [hunfold, if_neg herr, hd]
          simp only [hnot, if_false]
          rfl
        · intro xs
          simp only [List.cons_append, List.nil_append]
          rw [hplain b (by omega), hplain b1 (by omega), hplain b2 (by omega),
            hplain b3 (by omega)]
          cases scanString xs <;> rfl
        · intro k hk
          rw [hvunfold, if_neg herr, hd] at hk
          refine ⟨hk, fun m xs => ?_⟩
          have hstep := unquoteStep_raw b (b1 :: b2 :: b3 :: xs) hb
          rw [decodeRune_four b b1 b2 b3 xs ⟨g1, g2, g3, g4, g5, g6, g7, g8, g9, g10⟩, henc]
            at hstep
          exact unquoteAux_step m b _ [b, b1, b2, b3] xs hstep

/-! ## Theorems: a whole JSON string -/

/-- The scanner reads the escaped contents up to the closing quote that follows them. -/
theorem scanString_escapeAux (tail : Bytes) :
    ∀ (n : Nat) (s : Bytes),
      scanString (escapeAux n s ++ 0x22 :: tail) = some (escapeAux n s, tail) := by
  have hquote : scanString (0x22 :: tail) = some ([], tail) := by
    rw [scanString.eq_def]; simp [Fin.coe_ofNat_eq_mod]
  intro n
  induction n with
  | zero =>
    intro s
    cases s <;> simpa [escapeAux] using hquote
  | succ n ih =>
    intro s
    cases s with
    | nil => simpa [escapeAux] using hquote
    | cons b rest =>
      obtain ⟨chunk, orig, left, hesc, _, _, _, hscan, _⟩ := escapeAux_step n b rest
      rw [hesc, List.append_assoc, hscan, ih left]
      rfl

/-- Decoding the escaped contents of a valid UTF-8 string gives the string back. -/
theorem unquoteAux_escapeAux :
    ∀ (n : Nat) (s : Bytes), s.length ≤ n → validAux n s = true →
      ∀ m, (escapeAux n s).length ≤ m → unquoteAux m (escapeAux n s) = some s := by
  intro n
  induction n with
  | zero =>
    intro s hlen _ m _
    cases s with
    | nil => simp [escapeAux, unquoteAux]
    | cons b rest => simp at hlen
  | succ n ih =>
    intro s hlen hvalid m hm
    cases s with
    | nil => simp [escapeAux, unquoteAux]
    | cons b rest =>
      obtain ⟨chunk, orig, left, hesc, hsplit, horig, hchunk, _, hdec⟩ := escapeAux_step n b rest
      obtain ⟨hvleft, hun⟩ := hdec n hvalid
      have hlen2 : left.length ≤ n := by
        have := congrArg List.length hsplit
        simp only [List.length_cons, List.length_append] at this hlen
        omega
      rw [hesc] at hm ⊢
      simp only [List.length_append] at hm
      obtain ⟨m', rfl⟩ : ∃ m', m = m' + 1 := ⟨m - 1, by omega⟩
      rw [hun m' (escapeAux n left), ih left hlen2 hvleft m' (by omega), hsplit]
      rfl

theorem appendString_token :
    appendString (ascii "token") = [0x22, 0x74, 0x6F, 0x6B, 0x65, 0x6E, 0x22] := by decide

/-! ## Theorems: the credential store -/

theorem scanString_quote (xs : Bytes) : scanString (0x22 :: xs) = some ([], xs) := by
  rw [scanString.eq_def]; simp [Fin.coe_ofNat_eq_mod]

theorem scanString_tokenKey (xs : Bytes) :
    scanString (0x74 :: 0x6F :: 0x6B :: 0x65 :: 0x6E :: 0x22 :: xs)
      = some ([0x74, 0x6F, 0x6B, 0x65, 0x6E], xs) := by
  rw [scanString_plain 0x74 _ (by decide) (by decide) (by decide),
    scanString_plain 0x6F _ (by decide) (by decide) (by decide),
    scanString_plain 0x6B _ (by decide) (by decide) (by decide),
    scanString_plain 0x65 _ (by decide) (by decide) (by decide),
    scanString_plain 0x6E _ (by decide) (by decide) (by decide), scanString_quote]
  rfl

theorem unquote_tokenKey : unquote [0x74, 0x6F, 0x6B, 0x65, 0x6E] = some (ascii "token") := by
  decide

/-- The parser on the text that `MarshalIndent` writes around the escaped token `esc`. -/
theorem parseValue_configObject (fuel : Nat) (esc token : Bytes)
    (hscan : scanString (esc ++ 0x22 :: [0x0A, 0x7D]) = some (esc, [0x0A, 0x7D]))
    (hunq : unquote esc = some token) :
    parseValue (fuel + 3) 0
        (0x7B :: 0x0A :: 0x20 :: 0x20 :: 0x22 :: 0x74 :: 0x6F :: 0x6B :: 0x65 :: 0x6E :: 0x22
          :: 0x3A :: 0x20 :: 0x22 :: (esc ++ 0x22 :: [0x0A, 0x7D]))
      = some (JVal.object [(ascii "token", JVal.string token)], []) := by
  rw [parseValue]
  simp [Fin.coe_ofNat_eq_mod, maxNestingDepth, skipSpace, isSpace]
  rw [parseMembers]
  simp [Fin.coe_ofNat_eq_mod, scanString_tokenKey, unquote_tokenKey, skipSpace, isSpace]
  rw [parseValue]
  simp [Fin.coe_ofNat_eq_mod, hscan, hunq, skipSpace, isSpace]

theorem MarshalIndent_eq (config : Config) :
    MarshalIndent config
      = 0x7B :: 0x0A :: 0x20 :: 0x20 :: 0x22 :: 0x74 :: 0x6F :: 0x6B :: 0x65 :: 0x6E :: 0x22
          :: 0x3A :: 0x20 :: 0x22
          :: (escapeAux config.Token.length config.Token ++ 0x22 :: [0x0A, 0x7D]) := by
  rw [MarshalIndent, appendString_token, appendString]
  simp

/-- The document written by `MarshalIndent` for a valid UTF-8 token parses as the object with
the single member `token`, whose value is the token. -/
theorem parseDocument_MarshalIndent (config : Config) (hvalid : utf8Valid config.Token = true) :
    parseDocument (MarshalIndent config)
      = some (JVal.object [(ascii "token", JVal.string config.Token)]) := by
  have hscan := scanString_escapeAux [0x0A, 0x7D] config.Token.length config.Token
  have hunq : unquote (escapeAux config.Token.length config.Token) = some config.Token :=
    unquoteAux_escapeAux config.Token.length config.Token (le_refl _) hvalid _ (le_refl _)
  have hparse := parseValue_configObject
    ((escapeAux config.Token.length config.Token).length + 15) _ _ hscan hunq
  have hfirst : parseFirst (MarshalIndent config)
      = some (JVal.object [(ascii "token", JVal.string config.Token)], []) := by
    unfold parseFirst
    rw [MarshalIndent_eq]
    have hlen : (0x7B :: 0x0A :: 0x20 :: 0x20 :: 0x22 :: 0x74 :: 0x6F :: 0x6B :: 0x65 :: 0x6E
          :: 0x22 :: 0x3A :: 0x20 :: 0x22
          :: (escapeAux config.Token.length config.Token ++ 0x22 :: [0x0A, 0x7D]) : Bytes).length + 1
        = (escapeAux config.Token.length config.Token).length + 15 + 3 := by
      simp only [List.length_cons, List.length_append, List.length_nil]
    have hskip : ∀ xs : Bytes, skipSpace (0x7B :: xs) = 0x7B :: xs := by
      intro xs; simp [skipSpace, isSpace, Fin.coe_ofNat_eq_mod]
    rw [hlen, hskip, hparse]
  unfold parseDocument
  rw [hfirst]
  simp [skipSpace]

theorem Unmarshal_MarshalIndent (fold : Bytes → Bool) (config : Config)
    (hvalid : utf8Valid config.Token = true) :
    Unmarshal fold (MarshalIndent config) = Except.ok config := by
  unfold Unmarshal
  rw [parseDocument_MarshalIndent config hvalid]
  simp [decodeConfigMember]

/-- Claim C4, as amended: for every credential whose token is valid UTF-8, when `WriteConfig`
succeeds, `ReadConfig` on the resulting file system returns that credential and no error. -/
theorem WriteConfig_ReadConfig_roundtrip (env : Env) (config : Config)
    (hvalid : utf8Valid config.Token = true)
    (hwrite : (WriteConfig env config).1 = none) :
    ReadConfig (WriteConfig env config).2 = Except.ok config := by
  cases hhome : env.homeDir with
  | none => simp [WriteConfig, getConfigPath, hhome] at hwrite
  | some home =>
    by_cases hw : env.writable (env.join home configFileName) = true
    · simp [WriteConfig, getConfigPath, hhome, writeFile, hw, ReadConfig,
        Unmarshal_MarshalIndent _ config hvalid]
    · simp [WriteConfig, getConfigPath, hhome, writeFile, hw] at hwrite

/-- Claim C4, witness: the token `abc` written to a fresh home directory. -/
theorem WriteConfig_ReadConfig_roundtrip_witness :
    ReadConfig (WriteConfig freshEnv { Token := ascii "abc" }).2
      = Except.ok { Token := ascii "abc" } :=
  WriteConfig_ReadConfig_roundtrip freshEnv { Token := ascii "abc" } (by decide) (by decide)

/-- Claim C4, counterexample to the claim as stated: the token made of the single byte `0xFF`,
which is not valid UTF-8, is written with success and read back as U+FFFD. -/
theorem WriteConfig_ReadConfig_invalid_utf8_counterexample :
    (WriteConfig freshEnv { Token := [0xFF] }).1 = none
    ∧ ReadConfig (WriteConfig freshEnv { Token := [0xFF] }).2
        = Except.ok { Token := [0xEF, 0xBF, 0xBD] }
    ∧ ReadConfig (WriteConfig freshEnv { Token := [0xFF] }).2 ≠ Except.ok { Token := [0xFF] } := by
  decide

/-! ## Theorems: `PollForToken` -/

theorem attempts_append (a b : List Event) : attempts (a ++ b) = attempts a + attempts b := by
  unfold attempts
  induction a with
  | nil => simp [posts]
  | cons e a ih =>
    cases e <;> simp_all [posts]
    omega

/-- One pending attempt: the loop goes on to the next iteration, one request later. -/
theorem pollLoop_pending (net : Nat → HttpResult) (deviceCode : Bytes) (fuel retries : Nat)
    (hlt : retries < maxRetries) (hp : Pending (net retries)) :
    (pollLoop net deviceCode (fuel + 1) retries).1 = (pollLoop net deviceCode fuel (retries + 1)).1
    ∧ attempts (pollLoop net deviceCode (fuel + 1) retries).2
        = 1 + attempts (pollLoop net deviceCode fuel (retries + 1)).2 := by
  obtain ⟨status, body, hnet, hcase⟩ := hp
  rw [pollLoop, if_pos hlt]
  simp only [hnet]
  by_cases hs : status = 200
  · have hnone : mapGet (decodeStringMap body) (ascii "token") = none := by
      rcases hcase with h | h
      · exact absurd hs h
      · exact h
    simp only [hs, if_true, hnone]
    refine ⟨trivial, ?_⟩
    rw [attempts_append]
    simp [attempts, posts]
  · simp only [hs, if_false]
    refine ⟨trivial, ?_⟩
    rw [attempts_append]
    simp [attempts, posts]

/-- A run of `d` pending attempts: the loop reaches iteration `retries + d` after `d` requests. -/
theorem pollLoop_skip (net : Nat → HttpResult) (deviceCode : Bytes) (fuel : Nat) :
    ∀ (d retries : Nat), retries + d ≤ maxRetries →
      (∀ j, retries ≤ j → j < retries + d → Pending (net j)) →
      (pollLoop net deviceCode (fuel + d) retries).1
          = (pollLoop net deviceCode fuel (retries + d)).1
      ∧ attempts (pollLoop net deviceCode (fuel + d) retries).2
          = d + attempts (pollLoop net deviceCode fuel (retries + d)).2 := by
  intro d
  induction d with
  | zero => intro retries _ _; simp
  | succ d ih =>
    intro retries hle hp
    have h1 := pollLoop_pending net deviceCode (fuel + d) retries (by omega)
      (hp retries (le_refl _) (by omega))
    have h2 := ih (retries + 1) (by omega) (fun j hj1 hj2 => hp j (by omega) (by omega))
    have e1 : fuel + (d + 1) = fuel + d + 1 := by omega
    have e2 : retries + (d + 1) = retries + 1 + d := by omega
    rw [e1, e2]
    refine ⟨h1.1.trans h2.1, ?_⟩
    rw [h1.2, h2.2]; omega

/-- An attempt that answers 200 with a `token` entry ends the loop with that entry. -/
theorem pollLoop_token (net : Nat → HttpResult) (deviceCode : Bytes) (fuel retries : Nat)
    (body t : Bytes) (hlt : retries < maxRetries)
    (hnet : net retries = HttpResult.response 200 body)
    (htok : mapGet (decodeStringMap body) tokenKey = some t) :
    (pollLoop net deviceCode (fuel + 1) retries).1 = Except.ok t
    ∧ attempts (pollLoop net deviceCode (fuel + 1) retries).2 = 1 := by
  have htok2 : mapGet (decodeStringMap body) (ascii "token") = some t := htok
  rw [pollLoop, if_pos hlt]
  simp only [hnet, if_true, htok2]
  simp [attempts, posts]

/-- An attempt that fails at the transport level ends the loop with that error. -/
theorem pollLoop_failure (net : Nat → HttpResult) (deviceCode : Bytes) (fuel retries : Nat)
    (cause : Nat) (hlt : retries < maxRetries)
    (hnet : net retries = HttpResult.failure cause) :
    (pollLoop net deviceCode (fuel + 1) retries).1 = Except.error (Err.transport cause)
    ∧ attempts (pollLoop net deviceCode (fuel + 1) retries).2 = 1 := by
  rw [pollLoop, if_pos hlt]
  simp only [hnet]
  simp [attempts, posts]

/-- A response is pending when it is not a transport failure and, if its status is 200,
its body has no `token` entry. -/
theorem pending_of_no_failure_no_token (r : HttpResult)
    (hnofail : ∀ cause, r ≠ HttpResult.failure cause)
    (hnotok : ∀ body, r = HttpResult.response 200 body →
      mapGet (decodeStringMap body) tokenKey = none) : Pending r := by
  cases r with
  | failure cause => exact absurd rfl (hnofail cause)
  | response status body =>
    refine ⟨status, body, rfl, ?_⟩
    by_cases hs : status = 200
    · subst hs; exact Or.inr (hnotok body rfl)
    · exact Or.inl hs

/-- Whenever the loop ends without error, it ended at an iteration whose response had status
200 and a `token` entry, after pending iterations only. -/
theorem pollLoop_ok_inv (net : Nat → HttpResult) (deviceCode t : Bytes) :
    ∀ (fuel retries : Nat), (pollLoop net deviceCode fuel retries).1 = Except.ok t →
      ∃ i body, retries ≤ i ∧ i < maxRetries ∧ net i = HttpResult.response 200 body
        ∧ mapGet (decodeStringMap body) tokenKey = some t
        ∧ (∀ j, retries ≤ j → j < i → Pending (net j))
        ∧ attempts (pollLoop net deviceCode fuel retries).2 = i - retries + 1 := by
  intro fuel
  induction fuel with
  | zero => intro retries h; simp [pollLoop] at h
  | succ fuel ih =>
    intro retries h
    by_cases hlt : retries < maxRetries
    · cases hnet : net retries with
      | failure cause =>
        rw [(pollLoop_failure net deviceCode fuel retries cause hlt hnet).1] at h
        cases h
      | response status body =>
        by_cases hgrant : status = 200 ∧ ∃ t0, mapGet (decodeStringMap body) tokenKey = some t0
        · obtain ⟨hs, t0, ht0⟩ := hgrant
          subst hs
          have hres := pollLoop_token net deviceCode fuel retries body t0 hlt hnet ht0
          rw [hres.1] at h
          cases h
          exact ⟨retries, body, le_refl _, hlt, hnet, ht0, fun j h1 h2 => by omega,
            by rw [hres.2]; omega⟩
        · have hp : Pending (net retries) := by
            refine ⟨status, body, hnet, ?_⟩
            by_cases hs : status = 200
            · right
              cases hm : mapGet (decodeStringMap body) tokenKey with
              | none => rfl
              | some t0 => exact absurd ⟨hs, t0, hm⟩ hgrant
            · exact Or.inl hs
          have hstep := pollLoop_pending net deviceCode fuel retries hlt hp
          rw [hstep.1] at h
          obtain ⟨i, b, hi1, hi2, hi3, hi4, hi5, hi6⟩ := ih (retries + 1) h
          refine ⟨i, b, by omega, hi2, hi3, hi4, ?_, by rw [hstep.2, hi6]; omega⟩
          intro j hj1 hj2
          by_cases hj : j = retries
          · subst hj; exact hp
          · exact hi5 j (by omega) hj2
    · rw [pollLoop, if_neg hlt] at h
      cases h

/-- Claim C1, as amended: if attempt `k + 1` (`k < 30`) answers 200 with a non-empty token,
no earlier attempt fails at the transport level and no earlier attempt answers 200 with a
`token` entry, even an empty one, then `PollForToken` returns that token without error
after exactly `k + 1` attempts. -/
theorem PollForToken_first_token (net : Nat → HttpResult) (deviceCode : Bytes) (k : Nat)
    (body t : Bytes) (hk : k < 30)
    (hnet : net k = HttpResult.response 200 body)
    (htok : mapGet (decodeStringMap body) tokenKey = some t) (hne : t ≠ [])
    (hnofail : ∀ j, j < k → ∀ cause, net j ≠ HttpResult.failure cause)
    (hnotok : ∀ j, j < k → ∀ b, net j = HttpResult.response 200 b →
      mapGet (decodeStringMap b) tokenKey = none) :
    (PollForToken net deviceCode).1 = Except.ok t
    ∧ attempts (PollForToken net deviceCode).2 = k + 1
    ∧ t ≠ [] := by
  have hk2 : k < maxRetries := hk
  have hskip := pollLoop_skip net deviceCode (maxRetries - k + 1) k 0 (by omega)
    (fun j _ hj => pending_of_no_failure_no_token (net j) (hnofail j (by omega))
      (hnotok j (by omega)))
  have hhit := pollLoop_token net deviceCode (maxRetries - k) k body t hk2 hnet htok
  have e : maxRetries - k + 1 + k = maxRetries + 1 := by omega
  unfold PollForToken
  rw [← e]
  simp only [Nat.zero_add] at hskip
  refine ⟨hskip.1.trans hhit.1, ?_, hne⟩
  rw [hskip.2, hhit.2]

/-- Claim C1, witness: attempts 1 and 2 answer 202 with `{}`, attempt 3 answers 200 with
`{"token":"abc"}`; the result is `abc` after exactly 3 attempts. -/
theorem PollForToken_first_token_witness :
    (PollForToken thirdAttemptNet sampleDeviceCode).1 = Except.ok (ascii "abc")
    ∧ attempts (PollForToken thirdAttemptNet sampleDeviceCode).2 = 2 + 1
    ∧ ascii "abc" ≠ [] :=
  PollForToken_first_token thirdAttemptNet sampleDeviceCode 2 abcTokenBody (ascii "abc")
    (by decide) (by decide) (by decide) (by decide)
    (fun j hj cause => by
      have hj2 : j < 2 := hj
      simp [thirdAttemptNet, hj2])
    (fun j hj b hb => by
      have hj2 : j < 2 := hj
      simp [thirdAttemptNet, hj2] at hb)

/-- Claim C1, counterexample to the claim as stated: attempt 2 is the first to answer 200
with a non-empty token, `abc`, and no attempt fails at the transport level; `PollForToken`
does not return `abc` after 2 attempts, it returns the empty token of attempt 1 after a
single attempt. -/
theorem PollForToken_returns_earlier_empty_token :
    (emptyThenAbcNet 1 = HttpResult.response 200 abcTokenBody
      ∧ mapGet (decodeStringMap abcTokenBody) tokenKey = some (ascii "abc")
      ∧ ascii "abc" ≠ []
      ∧ emptyThenAbcNet 0 = HttpResult.response 200 emptyTokenBody
      ∧ mapGet (decodeStringMap emptyTokenBody) tokenKey = some [])
    ∧ (PollForToken emptyThenAbcNet sampleDeviceCode).1 = Except.ok []
    ∧ (PollForToken emptyThenAbcNet sampleDeviceCode).1 ≠ Except.ok (ascii "abc")
    ∧ attempts (PollForToken emptyThenAbcNet sampleDeviceCode).2 = 1 := by
  decide

/-- Claim C2, as amended: if each of the first 30 attempts gets a response that has a status
other than 200 or a body without a `token` entry (an entry with an empty value counts as
an entry), `PollForToken` fails with the authorization-timeout error after exactly 30
attempts. -/
theorem PollForToken_timeout (net : Nat → HttpResult) (deviceCode : Bytes)
    (hpending : ∀ j, j < 30 → ∃ status body, net j = HttpResult.response status body ∧
      (status ≠ 200 ∨ mapGet (decodeStringMap body) tokenKey = none)) :
    (PollForToken net deviceCode).1 = Except.error Err.authTimeout
    ∧ attempts (PollForToken net deviceCode).2 = 30 := by
  have hskip := pollLoop_skip net deviceCode 1 maxRetries 0 (by omega)
    (fun j _ hj => hpending j (by simpa [maxRetries] using hj))
  have e : 1 + maxRetries = maxRetries + 1 := by omega
  unfold PollForToken
  rw [← e]
  simp only [Nat.zero_add] at hskip
  have hend : pollLoop net deviceCode 1 maxRetries = (Except.error Err.authTimeout, []) := by
    rw [pollLoop, if_neg (by omega)]
  rw [hskip.1, hskip.2, hend]
  simp [attempts, posts, maxRetries]

/-- Claim C2, witness: every attempt answers 202 with `{}`. -/
theorem PollForToken_timeout_witness :
    (PollForToken alwaysPendingNet sampleDeviceCode).1 = Except.error Err.authTimeout
    ∧ attempts (PollForToken alwaysPendingNet sampleDeviceCode).2 = 30 :=
  PollForToken_timeout alwaysPendingNet sampleDeviceCode
    (fun _ _ => ⟨202, emptyObjectBody, rfl, Or.inl (by decide)⟩)

/-- Claim C2, counterexample to the claim as stated: no attempt fails at the transport level
and none returns a token other than the empty string (attempt 1 answers 202 with `{}`, every
later attempt answers 200 with `{"token":""}`), yet `PollForToken` does not fail with the
timeout error after 30 attempts: it returns the empty token without error after 2
attempts. -/
theorem PollForToken_no_timeout_on_empty_token :
    (∀ j, j < 30 → pendingThenEmptyTokenNet j = HttpResult.response 202 emptyObjectBody
        ∨ pendingThenEmptyTokenNet j = HttpResult.response 200 emptyTokenBody)
    ∧ mapGet (decodeStringMap emptyObjectBody) tokenKey = none
    ∧ mapGet (decodeStringMap emptyTokenBody) tokenKey = some []
    ∧ (PollForToken pendingThenEmptyTokenNet sampleDeviceCode).1 = Except.ok []
    ∧ (PollForToken pendingThenEmptyTokenNet sampleDeviceCode).1 ≠ Except.error Err.authTimeout
    ∧ attempts (PollForToken pendingThenEmptyTokenNet sampleDeviceCode).2 = 2
    ∧ attempts (PollForToken pendingThenEmptyTokenNet sampleDeviceCode).2 ≠ 30 := by
  refine ⟨?_, by decide, by decide, by decide, by decide, by decide, by decide⟩
  intro j _
  by_cases hj : j = 0
  · left; simp [pendingThenEmptyTokenNet, hj]
  · right; simp [pendingThenEmptyTokenNet, hj]

/-- Claim C3, as amended: if attempt `k + 1` (`k < 30`) is the first to fail at the transport
level and no earlier attempt answered 200 with a `token` entry, even an empty one,
`PollForToken` fails with that transport error, which is not the timeout error, returns no
token, and makes exactly `k + 1` attempts. -/
theorem PollForToken_transport_failure (net : Nat → HttpResult) (deviceCode : Bytes)
    (k cause : Nat) (hk : k < 30)
    (hnet : net k = HttpResult.failure cause)
    (hfirst : ∀ j, j < k → ∀ c, net j ≠ HttpResult.failure c)
    (hnotok : ∀ j, j < k → ∀ b, net j = HttpResult.response 200 b →
      mapGet (decodeStringMap b) tokenKey = none) :
    (PollForToken net deviceCode).1 = Except.error (Err.transport cause)
    ∧ (PollForToken net deviceCode).1 ≠ Except.error Err.authTimeout
    ∧ (∀ t, (PollForToken net deviceCode).1 ≠ Except.ok t)
    ∧ attempts (PollForToken net deviceCode).2 = k + 1 := by
  have hk2 : k < maxRetries := hk
  have hskip := pollLoop_skip net deviceCode (maxRetries - k + 1) k 0 (by omega)
    (fun j _ hj => pending_of_no_failure_no_token (net j) (hfirst j (by omega))
      (hnotok j (by omega)))
  have hhit := pollLoop_failure net deviceCode (maxRetries - k) k cause hk2 hnet
  have e : maxRetries - k + 1 + k = maxRetries + 1 := by omega
  simp only [Nat.zero_add] at hskip
  have hres : (PollForToken net deviceCode).1 = Except.error (Err.transport cause) := by
    unfold PollForToken
    rw [← e]
    exact hskip.1.trans hhit.1
  refine ⟨hres, ?_, ?_, ?_⟩
  · rw [hres]; simp
  · intro t; rw [hres]; simp
  · unfold PollForToken
    rw [← e, hskip.2, hhit.2]

/-- Claim C3, witness: attempts 1 and 2 answer 202 with `{}`, attempt 3 fails at the transport
level. -/
theorem PollForToken_transport_failure_witness :
    (PollForToken thirdAttemptFailsNet sampleDeviceCode).1 = Except.error (Err.transport 7)
    ∧ (PollForToken thirdAttemptFailsNet sampleDeviceCode).1 ≠ Except.error Err.authTimeout
    ∧ (∀ t, (PollForToken thirdAttemptFailsNet sampleDeviceCode).1 ≠ Except.ok t)
    ∧ attempts (PollForToken thirdAttemptFailsNet sampleDeviceCode).2 = 2 + 1 :=
  PollForToken_transport_failure thirdAttemptFailsNet sampleDeviceCode 2 7
    (by decide) (by decide)
    (fun j hj c => by
      have hj2 : j < 2 := hj
      simp [thirdAttemptFailsNet, hj2])
    (fun j hj b hb => by
      have hj2 : j < 2 := hj
      simp [thirdAttemptFailsNet, hj2] at hb)

/-- Claim C3, counterexample to the claim as stated: attempt 2 is the first to fail at the
transport level and attempt 1 returned no token other than the empty string (it answers 200
with `{"token":""}`), yet `PollForToken` does not fail with the transport error after 2
attempts: it returns the empty token without error after a single attempt. -/
theorem PollForToken_no_transport_error_after_empty_token :
    emptyTokenThenFailureNet 1 = HttpResult.failure 7
    ∧ emptyTokenThenFailureNet 0 = HttpResult.response 200 emptyTokenBody
    ∧ mapGet (decodeStringMap emptyTokenBody) tokenKey = some []
    ∧ (PollForToken emptyTokenThenFailureNet sampleDeviceCode).1 = Except.ok []
    ∧ (PollForToken emptyTokenThenFailureNet sampleDeviceCode).1
        ≠ Except.error (Err.transport 7)
    ∧ attempts (PollForToken emptyTokenThenFailureNet sampleDeviceCode).2 = 1 := by
  decide

/-- Claim C10, as amended: `PollForToken` returns a token without error exactly when some
attempt within the budget answers 200 with a `token` entry after pending attempts only; the
token returned is that entry, which may be empty, and that attempt is the last one made.  A
response with status 200 and no `token` entry is a pending attempt. -/
theorem PollForToken_ok_iff (net : Nat → HttpResult) (deviceCode t : Bytes) :
    (PollForToken net deviceCode).1 = Except.ok t ↔
      ∃ i body, i < 30 ∧ net i = HttpResult.response 200 body
        ∧ mapGet (decodeStringMap body) tokenKey = some t
        ∧ (∀ j, j < i → ∃ status b, net j = HttpResult.response status b ∧
            (status ≠ 200 ∨ mapGet (decodeStringMap b) tokenKey = none))
        ∧ attempts (PollForToken net deviceCode).2 = i + 1 := by
  constructor
  · intro h
    obtain ⟨i, body, _, hi2, hi3, hi4, hi5, hi6⟩ :=
      pollLoop_ok_inv net deviceCode t (maxRetries + 1) 0 h
    exact ⟨i, body, hi2, hi3, hi4, fun j hj => hi5 j (Nat.zero_le _) hj, by
      unfold PollForToken; rw [hi6]; omega⟩
  · rintro ⟨i, body, hi, hnet, htok, hpend, _⟩
    have hi2 : i < maxRetries := hi
    have hskip := pollLoop_skip net deviceCode (maxRetries - i + 1) i 0 (by omega)
      (fun j _ hj => hpend j (by omega))
    have hhit := pollLoop_token net deviceCode (maxRetries - i) i body t hi2 hnet htok
    have e : maxRetries - i + 1 + i = maxRetries + 1 := by omega
    unfold PollForToken
    rw [← e]
    simp only [Nat.zero_add] at hskip
    exact hskip.1.trans hhit.1

/-- Claim C10, counterexample to the claim as stated: the first response has status 200 and
an empty `token` entry; `PollForToken` returns the empty token without error after one
attempt instead of treating the attempt as pending. -/
theorem PollForToken_accepts_empty_token :
    emptyTokenNet 0 = HttpResult.response 200 emptyTokenBody
    ∧ mapGet (decodeStringMap emptyTokenBody) tokenKey = some []
    ∧ (PollForToken emptyTokenNet sampleDeviceCode).1 = Except.ok []
    ∧ attempts (PollForToken emptyTokenNet sampleDeviceCode).2 = 1 := by
  decide

/-! ## Theorems: `Listen` and the `listen` command -/

theorem posts_append (a b : List Event) : posts (a ++ b) = posts a ++ posts b := by
  induction a with
  | nil => simp [posts]
  | cons e a ih => cases e <;> simp_all [posts]

/-- The relay loop posts every inbound message once, unchanged and in order, whatever the
outcome of each forward request. -/
theorem posts_relayLoop (forwardURL : Bytes) (fwd : Nat → HttpResult) :
    ∀ (inbound : List Bytes) (i : Nat),
      posts (relayLoop forwardURL fwd inbound i).events
        = inbound.map (fun m => (forwardURL, m)) := by
  intro inbound
  induction inbound with
  | nil => intro i; simp [relayLoop, logFatal, posts]
  | cons m inbound ih =>
    intro i
    rw [relayLoop]
    cases hf : fwd i with
    | failure cause => simp [posts, ih (i + 1)]
    | response status body => simp [posts, ih (i + 1)]

/-- The relay loop only stops through `os.Exit(1)` and never closes the connection itself. -/
theorem relayLoop_exits (forwardURL : Bytes) (fwd : Nat → HttpResult) :
    ∀ (inbound : List Bytes) (i : Nat),
      (relayLoop forwardURL fwd inbound i).outcome = Outcome.exited 1
      ∧ Event.connClose ∉ (relayLoop forwardURL fwd inbound i).events := by
  intro inbound
  induction inbound with
  | nil => intro i; simp [relayLoop, logFatal]
  | cons m inbound ih =>
    intro i
    rw [relayLoop]
    cases hf : fwd i with
    | failure cause => simp [ih (i + 1)]
    | response status body => simp [ih (i + 1)]

/-- The requests of `Listen` once the connection is open are those of the relay loop. -/
theorem posts_Listen (ws : Bytes → Option (List Bytes)) (fwd : Nat → HttpResult)
    (forwardURL token : Bytes) (inbound : List Bytes)
    (hdial : ws (websocketBaseURL ++ ascii "?token=" ++ token) = some inbound) :
    posts (Listen ws fwd forwardURL token).events = inbound.map (fun m => (forwardURL, m)) := by
  unfold Listen
  simp only [hdial]
  rw [(relayLoop_exits forwardURL fwd inbound 0).1]
  simp [posts_append, posts, runDeferred, posts_relayLoop]

/-- Claim C5: when the connection opens and delivers the messages `inbound` before a read
fails, `Listen` makes exactly one request per message, to `forwardURL`, with the message as
body, in the order of receipt. -/
theorem Listen_forwards_each_message (ws : Bytes → Option (List Bytes))
    (fwd : Nat → HttpResult) (forwardURL token : Bytes) (inbound : List Bytes)
    (hdial : ws (websocketBaseURL ++ ascii "?token=" ++ token) = some inbound) :
    posts (Listen ws fwd forwardURL token).events = inbound.map (fun m => (forwardURL, m))
    ∧ (posts (Listen ws fwd forwardURL token).events).length = inbound.length := by
  have h := posts_Listen ws fwd forwardURL token inbound hdial
  exact ⟨h, by rw [h, List.length_map]⟩

/-- Claim C5, witness: the inbound message `{"event":"charge.paid"}` produces exactly one
request, with body `{"event":"charge.paid"}`. -/
theorem Listen_forwards_each_message_witness :
    posts (Listen (fun _ => some [chargePaid]) (fun _ => HttpResult.response 200 [])
        sampleForwardURL (ascii "abc")).events
      = [chargePaid].map (fun m => (sampleForwardURL, m))
    ∧ (posts (Listen (fun _ => some [chargePaid]) (fun _ => HttpResult.response 200 [])
        sampleForwardURL (ascii "abc")).events).length = [chargePaid].length :=
  Listen_forwards_each_message (fun _ => some [chargePaid])
    (fun _ => HttpResult.response 200 []) sampleForwardURL (ascii "abc") [chargePaid] rfl

/-- The events of the relay loop on `before ++ rest` are some events whose requests carry
the messages of `before`, followed by the events of the loop on `rest`. -/
theorem relayLoop_append (forwardURL : Bytes) (fwd : Nat → HttpResult) (rest : List Bytes) :
    ∀ (before : List Bytes) (i : Nat), ∃ pre,
      (relayLoop forwardURL fwd (before ++ rest) i).events
        = pre ++ (relayLoop forwardURL fwd rest (i + before.length)).events
      ∧ posts pre = before.map (fun m => (forwardURL, m)) := by
  intro before
  induction before with
  | nil => intro i; exact ⟨[], by simp, by simp [posts]⟩
  | cons m before ih =>
    intro i
    obtain ⟨pre, hpre, hposts⟩ := ih (i + 1)
    have e : i + 1 + before.length = i + (m :: before).length := by
      simp only [List.length_cons]; omega
    rw [e] at hpre
    rw [List.cons_append, relayLoop]
    cases hf : fwd i with
    | failure cause =>
      refine ⟨[Event.read, Event.stdout Msg.receivedWebhook, Event.stdout (Msg.payload m),
        Event.post forwardURL applicationJSON m, Event.log (Msg.forwardFailed cause)] ++ pre,
        by simp [hpre], by simp [posts_append, posts, hposts]⟩
    | response status body =>
      refine ⟨[Event.read, Event.stdout Msg.receivedWebhook, Event.stdout (Msg.payload m),
        Event.post forwardURL applicationJSON m, Event.bodyClose] ++ pre,
        by simp [hpre], by simp [posts_append, posts, hposts]⟩

/-- Claim C6: when the forward of a message fails, by a network error or by a response with
a status outside `200..299`, the loop goes on: after the failed request and one event that
is not a request, the next message is read and posted; the failed message is posted once,
not again. -/
theorem Listen_continues_after_forward_failure (ws : Bytes → Option (List Bytes))
    (fwd : Nat → HttpResult) (forwardURL token : Bytes)
    (before : List Bytes) (failed next : Bytes) (after : List Bytes)
    (hdial : ws (websocketBaseURL ++ ascii "?token=" ++ token)
      = some (before ++ failed :: next :: after))
    (hfail : (∃ cause, fwd before.length = HttpResult.failure cause)
      ∨ (∃ status body, fwd before.length = HttpResult.response status body
          ∧ ¬ (200 ≤ status ∧ status < 300))) :
    ∃ pre marker suf,
      (Listen ws fwd forwardURL token).events
        = pre ++ [Event.post forwardURL applicationJSON failed, marker, Event.read,
            Event.stdout Msg.receivedWebhook, Event.stdout (Msg.payload next),
            Event.post forwardURL applicationJSON next] ++ suf
      ∧ marker.isPost = false
      ∧ posts pre = before.map (fun m => (forwardURL, m))
      ∧ posts suf = after.map (fun m => (forwardURL, m)) := by
  obtain ⟨pre, hpre, hposts⟩ :=
    relayLoop_append forwardURL fwd (failed :: next :: after) before 0
  simp only [Nat.zero_add] at hpre
  have hexit := (relayLoop_exits forwardURL fwd (before ++ failed :: next :: after) 0).1
  have hsuf : ∃ suf, (relayLoop forwardURL fwd (next :: after) (before.length + 1)).events
      = [Event.read, Event.stdout Msg.receivedWebhook, Event.stdout (Msg.payload next),
          Event.post forwardURL applicationJSON next] ++ suf
      ∧ posts suf = after.map (fun m => (forwardURL, m)) := by
    rw [relayLoop]
    cases hf : fwd (before.length + 1) with
    | failure cause =>
      exact ⟨_, rfl, by simp [posts, posts_relayLoop]⟩
    | response status body =>
      exact ⟨_, rfl, by simp [posts, posts_relayLoop]⟩
  obtain ⟨suf, hsufEq, hsufPosts⟩ := hsuf
  have hmarker : ∃ marker, (relayLoop forwardURL fwd (failed :: next :: after)
        before.length).events
      = [Event.read, Event.stdout Msg.receivedWebhook, Event.stdout (Msg.payload failed),
          Event.post forwardURL applicationJSON failed, marker]
        ++ (relayLoop forwardURL fwd (next :: after) (before.length + 1)).events
      ∧ marker.isPost = false := by
    rw [relayLoop]
    rcases hfail with ⟨cause, hc⟩ | ⟨status, body, hs, _⟩
    · exact ⟨Event.log (Msg.forwardFailed cause), by simp [hc], rfl⟩
    · exact ⟨Event.bodyClose, by simp [hs], rfl⟩
  obtain ⟨marker, hmarkerEq, hmarkerPost⟩ := hmarker
  refine ⟨[Event.stdout Msg.startingListener,
      Event.dial (websocketBaseURL ++ ascii "?token=" ++ token),
      Event.stdout Msg.listenerStarted, Event.stdout (Msg.forwardingTo forwardURL)] ++ pre
      ++ [Event.read, Event.stdout Msg.receivedWebhook, Event.stdout (Msg.payload failed)],
    marker, suf, ?_, hmarkerPost, ?_, hsufPosts⟩
  · unfold Listen
    simp only [hdial]
    rw [hexit, hpre, hmarkerEq, hsufEq]
    simp [runDeferred]
  · simp [posts_append, posts, hposts]

/-- Claim C6, witness: the forward of the first of two messages fails at the network level,
the second message is still read and posted. -/
theorem Listen_continues_after_forward_failure_witness :
    ∃ pre marker suf,
      (Listen (fun _ => some ([] ++ chargePaid :: emptyObjectBody :: []))
          (fun _ => HttpResult.failure 1) sampleForwardURL (ascii "abc")).events
        = pre ++ [Event.post sampleForwardURL applicationJSON chargePaid, marker, Event.read,
            Event.stdout Msg.receivedWebhook, Event.stdout (Msg.payload emptyObjectBody),
            Event.post sampleForwardURL applicationJSON emptyObjectBody] ++ suf
      ∧ marker.isPost = false
      ∧ posts pre = ([] : List Bytes).map (fun m => (sampleForwardURL, m))
      ∧ posts suf = ([] : List Bytes).map (fun m => (sampleForwardURL, m)) :=
  Listen_continues_after_forward_failure (fun _ => some ([] ++ chargePaid :: emptyObjectBody :: []))
    (fun _ => HttpResult.failure 1) sampleForwardURL (ascii "abc") [] chargePaid emptyObjectBody []
    rfl (Or.inl ⟨1, rfl⟩)

/-- Claim C9, the code at the failing input: the connection opens and the first read fails.
`Listen` logs and exits; no `conn.Close()` is among its events.  The same holds for every
behaviour of the channel: the deferred close never runs. -/
theorem Listen_exits_without_closing (fwd : Nat → HttpResult) (forwardURL token : Bytes) :
    Listen (fun _ => some []) fwd forwardURL token
      = { events := [Event.stdout Msg.startingListener,
            Event.dial (websocketBaseURL ++ ascii "?token=" ++ token),
            Event.stdout Msg.listenerStarted, Event.stdout (Msg.forwardingTo forwardURL),
            Event.read, Event.log Msg.closedUnexpectedly, Event.exit 1],
          outcome := Outcome.exited 1 }
    ∧ ∀ ws : Bytes → Option (List Bytes),
        Event.connClose ∉ (Listen ws fwd forwardURL token).events := by
  constructor
  · simp [Listen, relayLoop, logFatal, runDeferred]
  · intro ws
    unfold Listen
    cases hws : ws (websocketBaseURL ++ ascii "?token=" ++ token) with
    | none => simp only [hws]; simp [logFatal]
    | some inbound =>
      have h := relayLoop_exits forwardURL fwd inbound 0
      simp only [hws]
      simp [h.1, h.2, runDeferred]

/-- Claim C7: when the current user is known and the credential file does not exist,
`ReadConfig` returns the zero `Config`, with an empty token, and no error. -/
theorem ReadConfig_missing_file (env : Env) (home : Bytes)
    (hhome : env.homeDir = some home)
    (hmissing : env.readFile (env.join home configFileName) = Except.error ReadError.notExist) :
    ReadConfig env = Except.ok { Token := [] } := by
  simp [ReadConfig, getConfigPath, hhome, hmissing]

/-- Claim C7, witness: a home directory without a credential file. -/
theorem ReadConfig_missing_file_witness :
    ReadConfig freshEnv = Except.ok { Token := [] } :=
  ReadConfig_missing_file freshEnv (ascii "/home/dev") rfl rfl

/-- Claim C8: when the stored credential has an empty token, the `listen` command logs the
not-logged-in message and exits with status 1; `Listen` is not run: the events hold no
dial, no read and no HTTP request. -/
theorem listenCmd_not_logged_in (env : Env) (ws : Bytes → Option (List Bytes))
    (fwd : Nat → HttpResult) (forwardURL : Bytes) (config : Config)
    (hread : ReadConfig env = Except.ok config) (hempty : config.Token = []) :
    listenCmd env ws fwd forwardURL
      = { events := [Event.log Msg.notLoggedIn, Event.exit 1], outcome := Outcome.exited 1 }
    ∧ ∀ e ∈ (listenCmd env ws fwd forwardURL).events, e.isNetwork = false := by
  have h : listenCmd env ws fwd forwardURL
      = { events := [Event.log Msg.notLoggedIn, Event.exit 1], outcome := Outcome.exited 1 } := by
    simp [listenCmd, hread, hempty, logFatal]
  refine ⟨h, ?_⟩
  rw [h]
  intro e he
  simp at he
  rcases he with rfl | rfl <;> rfl

/-- Claim C8, witness: no credential file at all; the channel and the forward target would
both answer, and neither is contacted. -/
theorem listenCmd_not_logged_in_witness :
    listenCmd freshEnv (fun _ => some [chargePaid]) (fun _ => HttpResult.response 200 [])
        sampleForwardURL
      = { events := [Event.log Msg.notLoggedIn, Event.exit 1], outcome := Outcome.exited 1 }
    ∧ ∀ e ∈ (listenCmd freshEnv (fun _ => some [chargePaid])
          (fun _ => HttpResult.response 200 []) sampleForwardURL).events,
        e.isNetwork = false :=
  listenCmd_not_logged_in freshEnv (fun _ => some [chargePaid])
    (fun _ => HttpResult.response 200 []) sampleForwardURL { Token := [] } rfl rfl

end AbacatePay
